import Mathlib

/-
  Verification of the XForm compiler-interpreter core (package `xform`)
  against its natural-language specification.

  The definitions below are a shallow embedding of `xform/xmlmodel.py` and
  `xform/eval.py` (with the AST record shapes of `zopyx/xform/ast.py`, the
  complete twin of the abbreviated `xform/ast.py`).  Python conventions are
  rendered as follows:

  * IEEE-754 doubles are modelled as exact rationals (`Rat`).  Every number
    arising in the theorems below is small and integral, where double and
    rational arithmetic agree exactly; no theorem relies on rounding.
  * Python dicts are insertion-ordered association lists with unique keys;
    `d[k] = v` is `dict_insert` (update in place, else append) and
    `d.setdefault(k, []).append(x)` is `dict_push`.
  * Exceptions are an `Except` monad; `Err.err` carries the Python message.
    Evaluator recursion is fuel-indexed (structural on `Nat`) so that closed
    evaluations reduce inside the kernel; `Err.fuel` marks exhaustion and
    occurs in no claim (any sufficiently large fuel gives the Python value).
  * The children list and the cyclic `parent` back-reference of the Python
    `Node` objects are represented by the mutually inductive `NodeList` and
    `ParentRef` (isomorphic to `List Node` and `Option Node`); the reference
    knot (a parent whose `children` contain the very child) is cut by
    storing the parent's value at assignment time.  Upward navigation
    (`parent` axis, `_root_of`) walks this chain exactly like the Python
    attribute accesses.  Claims about object identity and in-place mutation
    (deep-copy freshness) are settled on a separate arena model below.
-/

namespace XF

/-! ## Python dict helpers (insertion-ordered association lists) -/

/-- Lookup in an insertion-ordered dict: `d.get(k)` / `d[k]`. -/
def dict_get? {α : Type} : List (String × α) → String → Option α
  | [], _ => none
  | (k', v) :: rest, k => if k' = k then some v else dict_get? rest k

/-- Python `k in d`. -/
def dict_mem {α : Type} (d : List (String × α)) (k : String) : Bool :=
  (dict_get? d k).isSome

/-- Python `d[k] = v`: update in place if the key exists, else append. -/
def dict_insert {α : Type} : List (String × α) → String → α → List (String × α)
  | [], k, v => [(k, v)]
  | (k', v') :: rest, k, v =>
    if k' = k then (k', v) :: rest else (k', v') :: dict_insert rest k v

/-- Python `d.setdefault(k, []).append(x)`. -/
def dict_push {α : Type} : List (String × List α) → String → α → List (String × List α)
  | [], k, x => [(k, [x])]
  | (k', xs) :: rest, k, x =>
    if k' = k then (k', xs ++ [x]) :: rest else (k', xs) :: dict_push rest k x

/-! ## XML node model (`xform/xmlmodel.py`)

The `Node` dataclass: `kind` is one of `document`, `element`, `attribute`,
`text`, `comment`, `pi`; `attrs` is the insertion-ordered attribute dict;
`parent` is the back-reference (see the header remark on the cycle cut).
`NodeList`/`ParentRef` are the list of children and the optional parent,
kept mutually inductive so that all recursion is structural. -/

mutual
inductive Node where
  | mk (kind : String) (name : Option String) (value : Option String)
       (children : NodeList) (attrs : List (String × String)) (parent : ParentRef)
inductive NodeList where
  | nil
  | cons (head : Node) (tail : NodeList)
inductive ParentRef where
  | null
  | link (p : Node)
end

/-- Convert the mutual children representation to an ordinary list. -/
def NodeList.toList : NodeList → List Node
  | .nil => []
  | .cons h t => h :: t.toList

/-- Convert an ordinary list of nodes to the mutual representation. -/
def NodeList.ofList : List Node → NodeList
  | [] => .nil
  | h :: t => .cons h (NodeList.ofList t)

def Node.kind : Node → String
  | .mk k _ _ _ _ _ => k

def Node.name : Node → Option String
  | .mk _ n _ _ _ _ => n

def Node.value : Node → Option String
  | .mk _ _ v _ _ _ => v

/-- The `children` attribute, as an ordinary list. -/
def Node.children : Node → List Node
  | .mk _ _ _ ch _ _ => ch.toList

def Node.attrs : Node → List (String × String)
  | .mk _ _ _ _ a _ => a

/-- The `parent` attribute, as an option. -/
def Node.parent : Node → Option Node
  | .mk _ _ _ _ _ .null => none
  | .mk _ _ _ _ _ (.link p) => some p

/-- Build a node from ordinary Lean data (the Python `Node(...)`
constructor with explicit fields). -/
def mkNode (kind : String) (name value : Option String) (children : List Node)
    (attrs : List (String × String)) (parent : Option Node) : Node :=
  .mk kind name value (NodeList.ofList children) attrs
    (match parent with | none => .null | some p => .link p)

/-- Replace the `parent` field (the Python `child.parent = node`
assignment). -/
def Node.withParent : Node → Option Node → Node
  | .mk k n v ch a _, none => .mk k n v ch a .null
  | .mk k n v ch a _, some p => .mk k n v ch a (.link p)

mutual
/-- The `string_value` method of `xmlmodel.py`: own value for text and
attribute nodes, concatenation of the children's string-values for element
and document nodes, empty otherwise. -/
def string_value : Node → String
  | .mk k _ v ch _ _ =>
    if k = "text" then v.getD ""
    else if k = "attribute" then v.getD ""
    else if k = "element" ∨ k = "document" then string_value_list ch
    else ""
/-- Concatenation of the string-values of a list of children. -/
def string_value_list : NodeList → String
  | .nil => ""
  | .cons c rest => string_value c ++ string_value_list rest
end

mutual
/-- The `deep_copy` function of `xmlmodel.py`: a fresh node with the same
kind, name, value and a copy of the attrs dict; with `recurse` the children
are copied recursively and each copy's parent is set to the new node
(stored as the pre-assignment value of the copy, see the header remark),
without `recurse` the copy has no children.  The copy's own parent is
`None`. -/
def deep_copy : Node → Bool → Node
  | .mk k nm v ch a _, recurse =>
    if recurse then
      let copied := deep_copy_list ch
      let base : Node := .mk k nm v copied a .null
      .mk k nm v (reparent_list copied base) a .null
    else
      .mk k nm v .nil a .null
/-- Recursive copies of a children list (each with `recurse = True`). -/
def deep_copy_list : NodeList → NodeList
  | .nil => .nil
  | .cons c rest => .cons (deep_copy c true) (deep_copy_list rest)
/-- Set the parent of every node in the list (the copy's re-parenting
loop). -/
def reparent_list : NodeList → Node → NodeList
  | .nil, _ => .nil
  | .cons c rest, p => .cons (c.withParent (some p)) (reparent_list rest p)
end

mutual
/-- The `iter_descendants` generator of `xmlmodel.py`, as a list: each
child followed by its own descendants (document order). -/
def iter_descendants : Node → List Node
  | .mk _ _ _ ch _ _ => iter_descendants_list ch
/-- Descendant traversal of a children list. -/
def iter_descendants_list : NodeList → List Node
  | .nil => []
  | .cons c rest => c :: (iter_descendants c ++ iter_descendants_list rest)
end

/-- Python `text.replace(c, rep)` specialised to a one-character needle
(the only shape `xmlmodel.py` uses): replace every occurrence, left to
right. -/
def replace_char (c : Char) (rep : List Char) : List Char → List Char
  | [] => []
  | x :: rest =>
    if x = c then rep ++ replace_char c rep rest
    else x :: replace_char c rep rest

/-- The `_escape_text` function: replace `&`, then `<`, then `>` (this
exact order, as in the source). -/
def escape_text (s : String) : String :=
  String.mk (replace_char '>' "&gt;".data
    (replace_char '<' "&lt;".data
      (replace_char '&' "&amp;".data s.data)))

/-- The `_escape_attr` function: `_escape_text` then escape `"`. -/
def escape_attr (s : String) : String :=
  String.mk (replace_char '"' "&quot;".data (escape_text s).data)

/-- Python `"".join(...)`: concatenation of a list of strings. -/
def str_cat : List String → String
  | [] => ""
  | s :: rest => s ++ str_cat rest

/-- Serialisation of one attribute dict as it appears in an opening tag. -/
def attrs_string (attrs : List (String × String)) : String :=
  str_cat (attrs.map (fun kv => " " ++ kv.1 ++ "=\"" ++ escape_attr kv.2 ++ "\""))

mutual
/-- The `serialize` function of `xmlmodel.py`: document → concatenation of
children; text → escaped value; attribute → attribute-escaped value;
element → self-closing tag when childless, else open tag, children, close
tag; anything else → empty string. -/
def serialize : Node → String
  | .mk k nm v ch attrs _ =>
    if k = "document" then serialize_list ch
    else if k = "text" then escape_text (v.getD "")
    else if k = "attribute" then escape_attr (v.getD "")
    else if k = "element" then
      match ch with
      | .nil => "<" ++ nm.getD "" ++ attrs_string attrs ++ "/>"
      | .cons _ _ =>
        "<" ++ nm.getD "" ++ attrs_string attrs ++ ">" ++ serialize_list ch ++
          "</" ++ nm.getD "" ++ ">"
    else ""
/-- Concatenation of the serialisations of a children list. -/
def serialize_list : NodeList → String
  | .nil => ""
  | .cons c rest => serialize c ++ serialize_list rest
end

end XF

namespace XF

/-! ## The sequence value domain

Items are the Python objects the evaluator passes around: XML nodes,
booleans, numbers, strings, maps, function references, and Python `None`.
Map values record what the Python code actually stores in a dict: a
sequence (`index`, and the `"items"` entry of `groupBy`) or a bare string
(the `"key"` entry of `groupBy`). -/

mutual
inductive Item where
  | node (n : Node)
  | bool (b : Bool)
  | num (q : Rat)
  | str (s : String)
  | map (entries : List (String × MapVal))
  | funcRef (name : String)
  | null
inductive MapVal where
  | seq (items : List Item)
  | raw (s : String)
end

/-- A sequence: the evaluator's universal value type. -/
abbrev Seq := List Item

/-- Errors: a Python exception message, or fuel exhaustion of the embedding
(which corresponds to no Python behaviour and occurs in no claim). -/
inductive Err where
  | fuel
  | err (msg : String)

abbrev Res := Except Err Seq

/-- A bare Python string re-entering sequence position (the object
`_fn_lookup` returns for the `"key"` entry of a `groupBy` map).  A Python
`str` behaves under every sequence operation this code performs (truth
test, `len`, indexing, slicing, iteration, `extend`, `sorted`) exactly
like the list of its one-character strings, which is how it is expanded
here. -/
def map_val_to_seq : MapVal → Seq
  | .seq l => l
  | .raw s => s.data.map (fun c => .str (String.mk [c]))

/-! ## Number formatting and parsing (Python `str`/`float` on doubles) -/

/-- Python `str(float)` for a rational with a terminating decimal
expansion: integral values print as integers (`is_integer` branch of
`to_string`), otherwise the shortest decimal form.  A denominator that is
not of the form `2^a * 5^b` cannot arise from parsed literals and is
printed as a fraction (no claim touches that case; Python would print the
rounded repr of the double). -/
def rat_to_string (q : Rat) : String :=
  if q.den = 1 then toString q.num
  else
    match (List.range (q.den + 1)).find? (fun m => decide (q.den ∣ 10 ^ m)) with
    | some m =>
      let scaled := q.num.natAbs * 10 ^ m / q.den
      let ip := scaled / 10 ^ m
      let fp := scaled % 10 ^ m
      let fpStr := toString fp
      let padded := String.mk (List.replicate (m - fpStr.length) '0') ++ fpStr
      (if q.num < 0 then "-" else "") ++ toString ip ++ "." ++ padded
    | none => toString q.num ++ "/" ++ toString q.den

/-- Numeric value of a digit run. -/
def digits_val (ds : List Char) : Nat :=
  ds.foldl (fun a c => a * 10 + (c.toNat - '0'.toNat)) 0

/-- Python `float(string)`: optional surrounding whitespace, optional
sign, digits with an optional decimal point (at least one digit overall),
and an optional exponent.  `inf`, `nan` and digit-group underscores are
not modelled (no claim touches them); such inputs report failure. -/
def parse_float? (s : String) : Option Rat :=
  let cs := (s.data.dropWhile Char.isWhitespace).reverse.dropWhile Char.isWhitespace |>.reverse
  let signed : Int × List Char :=
    match cs with
    | '-' :: rest => (-1, rest)
    | '+' :: rest => (1, rest)
    | _ => (1, cs)
  let sign := signed.1
  let cs := signed.2
  let ipart := cs.takeWhile Char.isDigit
  let cs1 := cs.dropWhile Char.isDigit
  let frac : List Char × List Char :=
    match cs1 with
    | '.' :: rest => (rest.takeWhile Char.isDigit, rest.dropWhile Char.isDigit)
    | _ => ([], cs1)
  let fpart := frac.1
  let cs2 := frac.2
  if ipart = [] ∧ fpart = [] then none
  else
    let mant : Rat :=
      (sign * Int.ofNat (digits_val ipart * 10 ^ fpart.length + digits_val fpart) : Int) /
        ((10 : Rat) ^ fpart.length)
    match cs2 with
    | [] => some mant
    | e :: rest =>
      if e = 'e' ∨ e = 'E' then
        let esigned : Bool × List Char :=
          match rest with
          | '-' :: r => (true, r)
          | '+' :: r => (false, r)
          | _ => (false, rest)
        let eds := esigned.2.takeWhile Char.isDigit
        let rest2 := esigned.2.dropWhile Char.isDigit
        if eds = [] ∨ rest2 ≠ [] then none
        else if esigned.1 then some (mant / (10 : Rat) ^ digits_val eds)
        else some (mant * (10 : Rat) ^ digits_val eds)
      else none

/-! ## Coercions (`to_boolean`, `to_string`, `to_number`, `value_equal`) -/

/-- Python truthiness of one atomic item, as used by the membership test
`item not in (False, 0, 0.0, "", None)` in `to_boolean`. -/
def truthy : Item → Bool
  | .bool b => b
  | .num q => decide (q ≠ 0)
  | .str s => decide (s ≠ "")
  | .null => false
  | .node _ => true
  | .map _ => true
  | .funcRef _ => true

/-- The `to_boolean` coercion: empty is false, any node makes the sequence
true, else true iff some item is truthy. -/
def to_boolean (seq : Seq) : Bool :=
  match seq with
  | [] => false
  | _ =>
    if seq.any (fun i => match i with | .node _ => true | _ => false) then true
    else seq.any truthy

/-- Python `str(...)` of one item as `to_string` applies it.  For maps and
function references Python would print the object's repr text; only a
stable placeholder is produced here (the exact repr text is inspected by
no claim and no theorem below). -/
def to_string_item : Item → String
  | .node n => string_value n
  | .null => ""
  | .bool b => if b then "true" else "false"
  | .num q => rat_to_string q
  | .str s => s
  | .map entries => "\x7b" ++ String.intercalate ", " (entries.map (fun kv => kv.1)) ++ "\x7d"
  | .funcRef nm => "FunctionRef(name=" ++ nm ++ ")"

/-- The `to_string` coercion: empty sequence is `""`, else the string of
the first item. -/
def to_string (seq : Seq) : String :=
  match seq with
  | [] => ""
  | item :: _ => to_string_item item

/-- The `to_number` coercion: empty is `0.0`; a node converts via its
string-value; bools are 1/0; strings parse as floats; anything else (and a
failed parse) raises `XFDY0002: number conversion`. -/
def to_number (seq : Seq) : Except Err Rat :=
  match seq with
  | [] => .ok 0
  | item :: _ =>
    match item with
    | .num q => .ok q
    | .bool b => .ok (if b then 1 else 0)
    | .str s =>
      match parse_float? s with
      | some q => .ok q
      | none => .error (.err "XFDY0002: number conversion")
    | .node n =>
      match parse_float? (string_value n) with
      | some q => .ok q
      | none => .error (.err "XFDY0002: number conversion")
    | _ => .error (.err "XFDY0002: number conversion")

/-- The `value_equal` helper: string equality after `to_string`
atomization. -/
def value_equal (left right : Seq) : Bool :=
  to_string left = to_string right

/-- The `eval_binary` helper.  Note the faithful operand order: for every
operator other than `and`/`or` both operands are converted to numbers
before the operator is inspected, exactly as in the source (so even `=`
raises `XFDY0002` on non-numeric operands). -/
def eval_binary (op : String) (left right : Seq) : Except Err Item :=
  if op = "and" then .ok (.bool (to_boolean left && to_boolean right))
  else if op = "or" then .ok (.bool (to_boolean left || to_boolean right))
  else do
    let lnum ← to_number left
    let rnum ← to_number right
    if op = "+" then .ok (.num (lnum + rnum))
    else if op = "-" then .ok (.num (lnum - rnum))
    else if op = "*" then .ok (.num (lnum * rnum))
    else if op = "div" then
      if rnum = 0 then .error (.err "ZeroDivisionError: float division by zero")
      else .ok (.num (lnum / rnum))
    else if op = "mod" then
      if rnum = 0 then .error (.err "ZeroDivisionError: float modulo")
      else .ok (.num (lnum - rnum * ((lnum / rnum).floor : Rat)))
    else if op = "=" then .ok (.bool (value_equal left right))
    else if op = "!=" then .ok (.bool (!value_equal left right))
    else if op = "<" then .ok (.bool (decide (lnum < rnum)))
    else if op = "<=" then .ok (.bool (decide (lnum ≤ rnum)))
    else if op = ">" then .ok (.bool (decide (rnum < lnum)))
    else if op = ">=" then .ok (.bool (decide (rnum ≤ lnum)))
    else .error (.err ("Unknown operator " ++ op))

end XF

namespace XF

/-! ## The AST (`zopyx/xform/ast.py`) -/

/-- A path start: kind is one of `context`, `root`, `desc`, `desc_root`,
`var` (with a name for `var`). -/
structure PathStart where
  kind : String
  name : Option String := none
deriving DecidableEq

/-- A step test: kind is one of `name`, `wildcard`, `text`, `node`,
`comment`, `pi`. -/
structure StepTest where
  kind : String
  name : Option String := none
deriving DecidableEq

/-- Patterns of `match` cases and template rules.  `elementPattern`
mirrors the `ElementPattern(name, var=None, child=None)` dataclass. -/
inductive Pattern where
  | wildcardPattern
  | elementPattern (name : String) (var : Option String) (child : Option Pattern)
  | typedPattern (kind : String)
  | attributePattern (name : String)

mutual
/-- Expressions, one constructor per `ast.py` dataclass. -/
inductive Expr where
  | literal (value : Item)
  | varRef (name : String)
  | ifExpr (cond then_expr else_expr : Expr)
  | letExpr (name : String) (value body : Expr)
  | forExpr (name : String) (seq : Expr) (whereClause : Option Expr) (body : Expr)
  | matchExpr (target : Expr) (cases : List (Pattern × Expr)) (dflt : Option Expr)
  | funcCall (name : String) (args : List Expr)
  | unaryOp (op : String) (operand : Expr)
  | binaryOp (op : String) (left right : Expr)
  | pathExpr (start : PathStart) (steps : List PathStep)
  | constructor (name : String) (attrs : List (String × Expr)) (contents : List Expr)
  | textConstructor (e : Expr)
  | text (value : String)
  | interp (e : Expr)
/-- A path step: axis (`child`, `desc`, `desc_or_self`, `self`, `parent`,
`attr`), a test, and predicate expressions. -/
inductive PathStep where
  | mk (axis : String) (test : StepTest) (predicates : List Expr)
end

def PathStep.axis : PathStep → String
  | .mk a _ _ => a

def PathStep.test : PathStep → StepTest
  | .mk _ t _ => t

def PathStep.predicates : PathStep → List Expr
  | .mk _ _ p => p

/-- A function parameter (`Param(name, type_ref=None, default=None)`). -/
structure Param where
  name : String
  type_ref : Option String := none
  default : Option Expr := none

/-- A user function definition. -/
structure FunctionDef where
  params : List Param
  body : Expr

/-- A template rule. -/
structure RuleDef where
  pattern : Pattern
  body : Expr

/-- A parsed module. -/
structure Module where
  functions : List (String × FunctionDef)
  rules : List (String × List RuleDef)
  vars : List (String × Expr)
  namespaces : List (String × String)
  imports : List String
  expr : Option Expr

/-- The evaluation context (`Context` dataclass of `eval.py`): context
item, variable environment, function table, rule table, and the positional
pair.  Contexts are always built with the explicit constructor, exactly as
the Python code does. -/
inductive Context where
  | mk (context_item : Option Item) (vars : List (String × Seq))
       (functions : List (String × FunctionDef)) (rules : List (String × List RuleDef))
       (position : Option Nat) (last : Option Nat)

def Context.context_item : Context → Option Item
  | .mk i _ _ _ _ _ => i

/-- The `variables` attribute (that Python name is reserved in Lean). -/
def Context.vars : Context → List (String × Seq)
  | .mk _ v _ _ _ _ => v

def Context.functions : Context → List (String × FunctionDef)
  | .mk _ _ f _ _ _ => f

def Context.rules : Context → List (String × List RuleDef)
  | .mk _ _ _ r _ _ => r

def Context.position : Context → Option Nat
  | .mk _ _ _ _ p _ => p

def Context.last : Context → Option Nat
  | .mk _ _ _ _ _ l => l

/-! ## Pattern matching (`match_pattern`) -/

/-- Scan a children list for the first child some matcher accepts,
returning its bindings (the nested-element-pattern loop). -/
def first_child_match (f : Item → Bool × List (String × Seq)) :
    List Node → Option (List (String × Seq))
  | [] => none
  | c :: rest =>
    let r := f (.node c)
    if r.1 then some r.2 else first_child_match f rest

/-- The `match_pattern` function: wildcard matches anything; `@name`
matches attribute nodes by name; typed patterns match node kinds
(`node()` any node, never `None`); element patterns match element name and
either bind the children to `var`, or require some child to match the
nested pattern (first match wins, bindings merged), or just match. -/
def match_pattern : Pattern → Item → Bool × List (String × Seq)
  | .wildcardPattern, _ => (true, [])
  | .attributePattern nm, item =>
    match item with
    | .node n => if n.kind = "attribute" ∧ n.name = some nm then (true, []) else (false, [])
    | _ => (false, [])
  | .typedPattern k, item =>
    match item with
    | .null => (false, [])
    | .node n =>
      if k = "node" then (true, [])
      else if k = "text" then (if n.kind = "text" then (true, []) else (false, []))
      else if k = "comment" then (if n.kind = "comment" then (true, []) else (false, []))
      else (false, [])
    | _ => (false, [])
  | .elementPattern nm var child, item =>
    match item with
    | .node n =>
      if n.kind = "element" ∧ n.name = some nm then
        match var with
        | some v => (true, [(v, n.children.map Item.node)])
        | none =>
          match child with
          | some cp =>
            match first_child_match (match_pattern cp) n.children with
            | some b => (true, b)
            | none => (false, [])
          | none => (true, [])
      else (false, [])
    | _ => (false, [])

end XF

namespace XF

/-! ## The evaluator (`xform/eval.py`)

Recursion scheme: `eval_expr` is structural on a fuel counter, handing a
one-step-smaller evaluator to the (otherwise non-recursive) worker
functions.  Fuel exhaustion yields `Err.fuel`; for any fuel large enough
the result is the Python one. -/

/-- Evaluation of an expression in a context. -/
abbrev EvalFn := Expr → Context → Res

/-- Function-call dispatch (name, evaluated argument sequences, context). -/
abbrev CallFn := String → List Seq → Context → Res

/-- Build a derived context that keeps everything but the variable
environment (the ubiquitous `Context(ctx.context_item, new_vars, ...)`
construction). -/
def with_vars (ctx : Context) (vs : List (String × Seq)) : Context :=
  .mk ctx.context_item vs ctx.functions ctx.rules ctx.position ctx.last

/-- Build the per-candidate predicate context (`Context(cand,
dict(ctx.variables), ...)`). -/
def cand_context (ctx : Context) (cand : Item) : Context :=
  .mk (some cand) ctx.vars ctx.functions ctx.rules ctx.position ctx.last

/-- Python `new_vars.update(bindings)` after `dict(ctx.variables)`. -/
def bindings_env (vs : List (String × Seq)) (b : List (String × Seq)) :
    List (String × Seq) :=
  b.foldl (fun e kv => dict_insert e kv.1 kv.2) vs

/-- The `all(...)` over a step's predicate expressions: evaluate each in
the candidate's context, stopping at the first false (or error). -/
def all_predicates (ev : EvalFn) (ctx : Context) (cand : Item) :
    List Expr → Except Err Bool
  | [] => .ok true
  | p :: rest => do
    let v ← ev p (cand_context ctx cand)
    if to_boolean v then all_predicates ev ctx cand rest else .ok false

/-- Keep the candidates whose predicates all hold, in order. -/
def filter_predicates (ev : EvalFn) (ctx : Context) (preds : List Expr) :
    List Node → Except Err (List Node)
  | [] => .ok []
  | c :: rest => do
    let b ← all_predicates ev ctx (.node c) preds
    let r ← filter_predicates ev ctx preds rest
    .ok (if b then c :: r else r)

/-- The `_matches_test` step-test filter. -/
def matches_test (n : Node) (test : StepTest) : Bool :=
  if test.kind = "node" then true
  else if test.kind = "wildcard" then n.kind = "element"
  else if test.kind = "text" then n.kind = "text"
  else if test.kind = "comment" then n.kind = "comment"
  else if test.kind = "pi" then n.kind = "pi"
  else if test.kind = "name" then n.name = test.name
  else false

/-- Axis candidate generation for one node, per `apply_step`: `self`,
`parent`, `desc_or_self`, `desc`, `attr` (synthesizing parentless
attribute nodes from the element's attrs), and the default child axis for
element/document nodes. -/
def step_candidates (n : Node) (step : PathStep) : List Node :=
  if step.axis = "self" then [n]
  else if step.axis = "parent" then
    match n.parent with
    | some p => [p]
    | none => []
  else if step.axis = "desc_or_self" then n :: iter_descendants n
  else if step.axis = "desc" then iter_descendants n
  else if step.axis = "attr" then
    if n.kind = "element" then
      if step.test.kind = "name" then
        match step.test.name with
        | some nm =>
          match dict_get? n.attrs nm with
          | some v => [mkNode "attribute" (some nm) (some v) [] [] none]
          | none => []
        | none => []
      else if step.test.kind = "wildcard" then
        n.attrs.map (fun kv => mkNode "attribute" (some kv.1) (some kv.2) [] [] none)
      else []
    else []
  else if n.kind = "element" ∨ n.kind = "document" then n.children
  else []

/-- The `apply_step` function: for each node item (non-nodes are skipped),
generate axis candidates, filter them by the step test (the source applies
`_matches_test` on every axis — its `attr`/`self`/`parent` branch performs
the identical call before `continue`), then by the predicates; results are
concatenated in item order. -/
def apply_step (ev : EvalFn) : Seq → PathStep → Context → Res
  | [], _, _ => .ok []
  | item :: rest, step, ctx =>
    match item with
    | .node n => do
      let matched := (step_candidates n step).filter (fun c => matches_test c step.test)
      let kept ← filter_predicates ev ctx step.predicates matched
      let restOut ← apply_step ev rest step ctx
      .ok (kept.map Item.node ++ restOut)
    | _ => apply_step ev rest step ctx

/-- The `_root_of` parent-chain climb for a node. -/
def root_climb : Node → Node
  | .mk k nm v ch a .null => .mk k nm v ch a .null
  | .mk _ _ _ _ _ (.link p) => root_climb p

/-- The `_root_of` helper: climb to the top from a node item, empty for
anything else. -/
def root_of : Option Item → Seq
  | some (.node n) => [.node (root_climb n)]
  | _ => []

/-- Sequential application of the path steps. -/
def run_steps (ev : EvalFn) (ctx : Context) : Seq → List PathStep → Res
  | cur, [] => .ok cur
  | cur, s :: rest => do
    let nxt ← apply_step ev cur s ctx
    run_steps ev ctx nxt rest

/-- The `eval_path` function: resolve the start (`context`, `root`,
`desc`, `desc_root`, or `var` — a bound variable's sequence, else the
context item with an implicit child name-test step prepended), then apply
the steps. -/
def eval_path (ev : EvalFn) (start : PathStart) (steps : List PathStep)
    (ctx : Context) : Res :=
  let ctxBase : Seq :=
    match ctx.context_item with
    | some i => [i]
    | none => []
  if start.kind = "context" then run_steps ev ctx ctxBase steps
  else if start.kind = "root" then run_steps ev ctx (root_of ctx.context_item) steps
  else if start.kind = "desc" then run_steps ev ctx ctxBase steps
  else if start.kind = "desc_root" then run_steps ev ctx (root_of ctx.context_item) steps
  else if start.kind = "var" then
    if (match start.name with | some nm => dict_mem ctx.vars nm | none => false) then
      run_steps ev ctx ((match start.name with
        | some nm => (dict_get? ctx.vars nm).getD []
        | none => [])) steps
    else
      run_steps ev ctx ctxBase (PathStep.mk "child" ⟨"name", start.name⟩ [] :: steps)
  else run_steps ev ctx [] steps

/-- Evaluate the attribute expressions of a constructor into the node's
attrs dict, in declaration order. -/
def build_attrs (ev : EvalFn) (ctx : Context) :
    List (String × Expr) → List (String × String) → Except Err (List (String × String))
  | [], acc => .ok acc
  | (nm, ae) :: rest, acc => do
    let v ← ev ae ctx
    build_attrs ev ctx rest (dict_insert acc nm (to_string v))

/-- Evaluate the content items of a constructor into the children list:
literal text contributes a text node; an expression's node results are
deep-copied, its atomic results become text nodes. -/
def build_contents (ev : EvalFn) (ctx : Context) : List Expr → Except Err (List Node)
  | [] => .ok []
  | c :: rest => do
    let nodes ←
      match c with
      | .text s => pure [mkNode "text" none (some s) [] [] none]
      | _ => do
        let seq ← ev c ctx
        pure (seq.map (fun it =>
          match it with
          | .node n => deep_copy n true
          | _ => mkNode "text" none (some (to_string_item it)) [] [] none))
    let restN ← build_contents ev ctx rest
    .ok (nodes ++ restN)

/-- The `eval_constructor` function: fresh element with the literal tag
name, attributes evaluated and stringified in order, contents evaluated,
children re-parented to the new element (parent stored as the value the
element has at assignment time: attrs set, children not yet attached). -/
def eval_constructor (ev : EvalFn) (name : String) (attrExprs : List (String × Expr))
    (contents : List Expr) (ctx : Context) : Except Err Node := do
  let attrs ← build_attrs ev ctx attrExprs []
  let children ← build_contents ev ctx contents
  let base := mkNode "element" (some name) none [] attrs none
  .ok (mkNode "element" (some name) none
    (children.map (fun c => c.withParent (some base))) attrs none)

/-! ### Built-in functions -/

/-- `_fn_string`. -/
def fn_string (args : List Seq) : Seq :=
  [.str (to_string (args.headD []))]

/-- `_fn_number`. -/
def fn_number (args : List Seq) : Res := do
  let q ← to_number (args.headD [])
  .ok [.num q]

/-- `_fn_boolean`. -/
def fn_boolean (args : List Seq) : Seq :=
  [.bool (to_boolean (args.headD []))]

/-- `_fn_typeof`. -/
def fn_typeof (args : List Seq) : Seq :=
  match args.headD [] with
  | [] => [.str "null"]
  | item :: _ =>
    [.str (match item with
      | .node _ => "node"
      | .map _ => "map"
      | .bool _ => "boolean"
      | .num _ => "number"
      | .null => "null"
      | .str _ => "string"
      | .funcRef _ => "string")]

/-- `_fn_name`. -/
def fn_name (args : List Seq) : Seq :=
  match args.headD [] with
  | .node n :: _ => [.str (n.name.getD "")]
  | _ => [.str ""]

/-- `_fn_attr`. -/
def fn_attr (args : List Seq) : Seq :=
  match args.headD [] with
  | .node n :: _ =>
    if n.kind = "element" then
      match args with
      | _ :: a2 :: _ => [.str ((dict_get? n.attrs (to_string a2)).getD "")]
      | _ => [.str ""]
    else [.str ""]
  | _ => [.str ""]

/-- `_fn_text`: deep (default) gives the string-value, shallow the direct
text children only. -/
def fn_text (args : List Seq) : Seq :=
  match args.headD [] with
  | [] => [.str ""]
  | .node n :: _ =>
    let deep := match args with
      | _ :: a2 :: _ => to_boolean a2
      | _ => true
    if deep then [.str (string_value n)]
    else if n.kind = "element" ∨ n.kind = "document" then
      [.str ((n.children.filterMap (fun c =>
        if c.kind = "text" then some (c.value.getD "") else none)).foldl
          (fun a b => a ++ b) "")]
    else [.str (string_value n)]
  | _ => [.str (to_string (args.headD []))]

/-- `_fn_children`. -/
def fn_children (args : List Seq) : Seq :=
  match args.headD [] with
  | .node n :: _ => n.children.map Item.node
  | _ => []

/-- `_fn_elements`. -/
def fn_elements (args : List Seq) : Seq :=
  match args.headD [] with
  | .node n :: _ =>
    if n.kind = "element" ∨ n.kind = "document" then
      let elems := n.children.filter (fun c => c.kind = "element")
      let nameTest : Option String := match args with
        | _ :: a2 :: _ => some (to_string a2)
        | _ => none
      match nameTest with
      | some nt =>
        if nt = "" then elems.map Item.node
        else (elems.filter (fun c => c.name = some nt)).map Item.node
      | none => elems.map Item.node
    else []
  | _ => []

/-- `_fn_copy`. -/
def fn_copy (args : List Seq) : Seq :=
  match args.headD [] with
  | .node n :: _ =>
    let recurse := match args with
      | _ :: a2 :: _ => to_boolean a2
      | _ => true
    [.node (deep_copy n recurse)]
  | _ => []

/-- `_fn_count`. -/
def fn_count (args : List Seq) : Seq :=
  [.num ((args.headD []).length : Nat)]

/-- `_fn_empty`. -/
def fn_empty (args : List Seq) : Seq :=
  match args with
  | [] => [.bool true]
  | a :: _ => [.bool (a.length = 0)]

/-- The first-occurrence filter of `_fn_distinct`. -/
def distinct_go (seen : List String) : List Item → List Item
  | [] => []
  | it :: rest =>
    let k := to_string [it]
    if seen.contains k then distinct_go seen rest
    else it :: distinct_go (seen ++ [k]) rest

/-- `_fn_distinct`. -/
def fn_distinct (args : List Seq) : Seq :=
  match args with
  | [] => []
  | a :: _ => distinct_go [] a

/-- Stable insertion of a keyed item into a key-sorted list (an element
goes before the first strictly larger key, hence after earlier equal
keys: exactly the order of Python's stable `sorted`). -/
def insert_keyed (x : String × Item) : List (String × Item) → List (String × Item)
  | [] => [x]
  | y :: rest => if x.1 ≤ y.1 then x :: y :: rest else y :: insert_keyed x rest

/-- Stable sort of keyed items (observably identical to Python `sorted`
with a string key). -/
def sort_keyed : List (String × Item) → List (String × Item)
  | [] => []
  | x :: rest => insert_keyed x (sort_keyed rest)

/-- Compute the sort keys in element order (Python `sorted` evaluates the
key function on every element, first to last, before comparing). -/
def sort_keys (call : CallFn) (ctx : Context) (keyFn : Option String) :
    List Item → Except Err (List (String × Item))
  | [] => .ok []
  | it :: rest => do
    let k ← match keyFn with
      | some nm => do
        let r ← call nm [[it]] ctx
        pure (to_string r)
      | none => pure (to_string [it])
    let restK ← sort_keys call ctx keyFn rest
    .ok ((k, it) :: restK)

/-- Extract the key-function name of `sort`/`index`/`groupBy`: the first
item of the second argument when it is a function reference. -/
def key_fn_of (args : List Seq) : Option String :=
  match args with
  | _ :: (Item.funcRef nm :: _) :: _ => some nm
  | _ => none

/-- `_fn_sort`. -/
def fn_sort (call : CallFn) (args : List Seq) (ctx : Context) : Res :=
  match args with
  | [] => .ok []
  | a :: _ => do
    let keyed ← sort_keys call ctx (key_fn_of args) a
    .ok ((sort_keyed keyed).map (fun kv => kv.2))

/-- `_fn_concat` (and `_fn_seq`, the same operation). -/
def fn_concat (args : List Seq) : Seq :=
  args.foldl (fun acc s => acc ++ s) []

/-- `_fn_head`. -/
def fn_head (args : List Seq) : Seq :=
  match args.headD [] with
  | [] => []
  | x :: _ => [x]

/-- `_fn_tail`. -/
def fn_tail (args : List Seq) : Seq :=
  match args.headD [] with
  | [] => []
  | _ :: rest => rest

/-- `_fn_last`: with a nonempty argument its last element, otherwise the
positional `last` of the enclosing iteration (empty when absent). -/
def fn_last (args : List Seq) (ctx : Context) : Seq :=
  match args.headD [] with
  | [] =>
    match ctx.last with
    | none => []
    | some l => [.num (l : Nat)]
  | a :: rest =>
    match (a :: rest).getLast? with
    | some x => [x]
    | none => []

/-- Build the `index` / `groupBy` grouping dict: key each item (via the
key function or `to_string`) and append it to its group, in order. -/
def group_items (call : CallFn) (ctx : Context) (keyFn : Option String) :
    List Item → List (String × List Item) → Except Err (List (String × List Item))
  | [], acc => .ok acc
  | it :: rest, acc => do
    let k ← match keyFn with
      | some nm => do
        let r ← call nm [[it]] ctx
        pure (to_string r)
      | none => pure (to_string [it])
    group_items call ctx keyFn rest (dict_push acc k it)

/-- `_fn_index`. -/
def fn_index (call : CallFn) (args : List Seq) (ctx : Context) : Res :=
  match args with
  | [] => .ok []
  | a :: _ => do
    let groups ← group_items call ctx (key_fn_of args) a []
    .ok [.map (groups.map (fun kv => (kv.1, MapVal.seq kv.2)))]

/-- `_fn_lookup`: look the stringified key up in the map, default empty.
The stored value re-enters sequence position as the Python object it is
(see `map_val_to_seq`). -/
def fn_lookup (args : List Seq) : Seq :=
  match args with
  | a1 :: a2 :: _ =>
    match a1 with
    | [] => []
    | .map entries :: _ =>
      match dict_get? entries (to_string a2) with
      | some mv => map_val_to_seq mv
      | none => []
    | _ => []
  | _ => []

/-- `_fn_group_by`: group the sequence by key; each group becomes a map
whose `"key"` entry is the bare key string and whose `"items"` entry is
the group's list. -/
def fn_groupBy (call : CallFn) (args : List Seq) (ctx : Context) : Res :=
  match args with
  | a1 :: _ :: _ => do
    let groups ← group_items call ctx (key_fn_of args) a1 []
    .ok (groups.map (fun kv => Item.map [("key", MapVal.raw kv.1), ("items", MapVal.seq kv.2)]))
  | _ => .ok []

/-- `_fn_position`. -/
def fn_position (ctx : Context) : Seq :=
  match ctx.position with
  | none => []
  | some p => [.num (p : Nat)]

/-- First rule of a rule list whose pattern matches the item. -/
def first_rule : List RuleDef → Item → Option (List (String × Seq) × Expr)
  | [], _ => none
  | r :: rest, it =>
    let m := match_pattern r.pattern it
    if m.1 then some (m.2, r.body) else first_rule rest it

/-- The item loop of `_fn_apply`: route each item to the first matching
rule's body (bindings in scope, item as context item); an item no rule
matches raises `XFDY0001`. -/
def apply_items (ev : EvalFn) (rules : List RuleDef) (ctx : Context) : List Item → Res
  | [] => .ok []
  | it :: rest =>
    match first_rule rules it with
    | some (b, body) => do
      let out ← ev body (.mk (some it) (bindings_env ctx.vars b)
        ctx.functions ctx.rules ctx.position ctx.last)
      let r ← apply_items ev rules ctx rest
      .ok (out ++ r)
    | none => .error (.err "XFDY0001: no matching rule")

/-- `_fn_apply`: dispatch a sequence against a rule set (second argument,
default `"main"`; a missing set behaves as the empty rule list). -/
def fn_apply (ev : EvalFn) (args : List Seq) (ctx : Context) : Res :=
  match args with
  | [] => .ok []
  | a1 :: rest =>
    let ruleset :=
      match rest with
      | (x :: xs) :: _ => to_string (x :: xs)
      | _ => "main"
    apply_items ev ((dict_get? ctx.rules ruleset).getD []) ctx a1

/-- The summation loop of `_fn_sum`. -/
def sum_items : List Item → Rat → Except Err Rat
  | [], acc => .ok acc
  | it :: rest, acc => do
    let q ← to_number [it]
    sum_items rest (acc + q)

/-- `_fn_sum`. -/
def fn_sum (args : List Seq) : Res :=
  match args with
  | [] => .ok [.num 0]
  | a :: _ => do
    let s ← sum_items a 0
    .ok [.num s]

/-! ### Function dispatch and the main evaluator -/

/-- The default-binding loop of `call_function`: each unsupplied trailing
parameter must have a default (else `XFDY0002`), which is evaluated in the
caller's context and bound. -/
def bind_defaults (ev : EvalFn) (ctx : Context) :
    List Param → List (String × Seq) → Except Err (List (String × Seq))
  | [], env => .ok env
  | p :: rest, env =>
    match p.default with
    | none => .error (.err "XFDY0002: wrong arity")
    | some d => do
      let v ← ev d ctx
      bind_defaults ev ctx rest (dict_insert env p.name v)

/-- The `call_function` dispatcher: user functions first (arity check,
positional binding, defaults, body in the extended environment), then the
built-in table, else `XFST0003`.  The inner fuel bounds the
`call_function` recursion that `sort`/`index`/`groupBy` key functions
perform. -/
def call_function (ev : EvalFn) : Nat → String → List Seq → Context → Res
  | 0, _, _, _ => .error .fuel
  | k + 1, name, args, ctx =>
    match dict_get? ctx.functions name with
    | some func =>
      if args.length > func.params.length then .error (.err "XFDY0002: wrong arity")
      else do
        let supplied := (func.params.zip args).foldl
          (fun e pa => dict_insert e pa.1.name pa.2) ctx.vars
        let env ← bind_defaults ev ctx (func.params.drop args.length) supplied
        ev func.body (with_vars ctx env)
    | none =>
      if name = "string" then .ok (fn_string args)
      else if name = "number" then fn_number args
      else if name = "boolean" then .ok (fn_boolean args)
      else if name = "typeOf" then .ok (fn_typeof args)
      else if name = "name" then .ok (fn_name args)
      else if name = "attr" then .ok (fn_attr args)
      else if name = "text" then .ok (fn_text args)
      else if name = "children" then .ok (fn_children args)
      else if name = "elements" then .ok (fn_elements args)
      else if name = "copy" then .ok (fn_copy args)
      else if name = "count" then .ok (fn_count args)
      else if name = "empty" then .ok (fn_empty args)
      else if name = "distinct" then .ok (fn_distinct args)
      else if name = "sort" then fn_sort (call_function ev k) args ctx
      else if name = "concat" then .ok (fn_concat args)
      else if name = "index" then fn_index (call_function ev k) args ctx
      else if name = "lookup" then .ok (fn_lookup args)
      else if name = "groupBy" then fn_groupBy (call_function ev k) args ctx
      else if name = "seq" then .ok (fn_concat args)
      else if name = "sum" then fn_sum args
      else if name = "head" then .ok (fn_head args)
      else if name = "tail" then .ok (fn_tail args)
      else if name = "last" then .ok (fn_last args ctx)
      else if name = "position" then .ok (fn_position ctx)
      else if name = "apply" then fn_apply ev args ctx
      else .error (.err ("XFST0003: unknown function " ++ name))

/-- Left-to-right evaluation of call arguments. -/
def eval_args (ev : EvalFn) (ctx : Context) : List Expr → Except Err (List Seq)
  | [] => .ok []
  | a :: rest => do
    let v ← ev a ctx
    let r ← eval_args ev ctx rest
    .ok (v :: r)

/-- The `for` loop: per item a derived context with the item bound, the
item as context item, and `(position, last)` set; the optional `where`
filter is evaluated in that per-item context; bodies concatenate. -/
def eval_for_items (ev : EvalFn) (nm : String) (wh : Option Expr) (body : Expr)
    (ctx : Context) (total : Nat) : Nat → List Item → Res
  | _, [] => .ok []
  | idx, it :: rest => do
    let newCtx : Context := .mk (some it) (dict_insert ctx.vars nm [it])
      ctx.functions ctx.rules (some idx) (some total)
    let keep ← match wh with
      | none => pure true
      | some w => do
        let wv ← ev w newCtx
        pure (to_boolean wv)
    if keep then do
      let out ← ev body newCtx
      let restOut ← eval_for_items ev nm wh body ctx total (idx + 1) rest
      .ok (out ++ restOut)
    else eval_for_items ev nm wh body ctx total (idx + 1) rest

/-- First case of a `match` whose pattern matches the item. -/
def first_case : List (Pattern × Expr) → Item → Option (List (String × Seq) × Expr)
  | [], _ => none
  | (pat, body) :: rest, it =>
    let m := match_pattern pat it
    if m.1 then some (m.2, body) else first_case rest it

/-- Evaluation of one `match` target item: first matching case's body with
the bindings in scope, else the default body, else `XFDY0001`. -/
def eval_match_one (ev : EvalFn) (cases : List (Pattern × Expr)) (dflt : Option Expr)
    (ctx : Context) (t : Item) : Res :=
  match first_case cases t with
  | some (b, body) =>
    ev body (.mk (some t) (bindings_env ctx.vars b)
      ctx.functions ctx.rules ctx.position ctx.last)
  | none =>
    match dflt with
    | none => .error (.err "XFDY0001: no matching case")
    | some d =>
      ev d (.mk (some t) ctx.vars ctx.functions ctx.rules ctx.position ctx.last)

/-- The item loop of a `match` expression. -/
def eval_match_items (ev : EvalFn) (cases : List (Pattern × Expr)) (dflt : Option Expr)
    (ctx : Context) : List Item → Res
  | [] => .ok []
  | t :: rest => do
    let out ← eval_match_one ev cases dflt ctx t
    let r ← eval_match_items ev cases dflt ctx rest
    .ok (out ++ r)

/-- One step of `eval_expr`, dispatching on the expression form exactly as
the `isinstance` chain of the source does.  A unary operator that is
neither `-` nor `not` falls through every chain arm and raises the
source's `Unknown expr` error (its interpolated repr text is not
modelled; no claim inspects it). -/
def eval_step (ev : EvalFn) (call : CallFn) : Expr → Context → Res
  | .literal v, _ => .ok [v]
  | .varRef nm, ctx =>
    match dict_get? ctx.vars nm with
    | some v => .ok v
    | none =>
      if dict_mem ctx.functions nm then .ok [.funcRef nm]
      else
        match ctx.context_item with
        | some (.node n) =>
          .ok ((n.children.filter (fun c => c.kind = "element" ∧ c.name = some nm)).map .node)
        | _ => .ok []
  | .ifExpr c t e, ctx => do
    let cv ← ev c ctx
    if to_boolean cv then ev t ctx else ev e ctx
  | .letExpr nm value body, ctx => do
    let v ← ev value ctx
    ev body (with_vars ctx (dict_insert ctx.vars nm v))
  | .forExpr nm seqE wh body, ctx => do
    let s ← ev seqE ctx
    eval_for_items ev nm wh body ctx s.length 1 s
  | .matchExpr tgt cases dflt, ctx => do
    let s ← ev tgt ctx
    eval_match_items ev cases dflt ctx s
  | .funcCall nm args, ctx => do
    let argVals ← eval_args ev ctx args
    call nm argVals ctx
  | .unaryOp op e, ctx => do
    let v ← ev e ctx
    if op = "-" then do
      let q ← to_number v
      .ok [.num (-q)]
    else if op = "not" then .ok [.bool (!to_boolean v)]
    else .error (.err "Unknown expr")
  | .binaryOp op l r, ctx =>
    if op = "and" then do
      let lv ← ev l ctx
      if !to_boolean lv then .ok [.bool false]
      else do
        let rv ← ev r ctx
        .ok [.bool (to_boolean rv)]
    else if op = "or" then do
      let lv ← ev l ctx
      if to_boolean lv then .ok [.bool true]
      else do
        let rv ← ev r ctx
        .ok [.bool (to_boolean rv)]
    else do
      let lv ← ev l ctx
      let rv ← ev r ctx
      let x ← eval_binary op lv rv
      .ok [x]
  | .pathExpr start steps, ctx => eval_path ev start steps ctx
  | .constructor nm attrs contents, ctx => do
    let nd ← eval_constructor ev nm attrs contents ctx
    .ok [.node nd]
  | .textConstructor e, ctx => do
    let v ← ev e ctx
    .ok [.node (mkNode "text" none (some (to_string v)) [] [] none)]
  | .text s, _ => .ok [.str s]
  | .interp e, ctx => ev e ctx

/-- The `eval_expr` function, fuel-indexed. -/
def eval_expr : Nat → Expr → Context → Res
  | 0, _, _ => .error .fuel
  | n + 1, e, ctx => eval_step (eval_expr n) (call_function (eval_expr n) n) e ctx

/-- Sequential binding of the module-level variables (each initializer
sees the previously bound ones). -/
def eval_module_vars (fuel : Nat) : List (String × Expr) → Context → Except Err Context
  | [], ctx => .ok ctx
  | (nm, e) :: rest, ctx => do
    let v ← eval_expr fuel e ctx
    eval_module_vars fuel rest (with_vars ctx (dict_insert ctx.vars nm v))

/-- The `eval_module` entry point: seed the context with the document,
bind the module variables in order, evaluate the optional top-level
expression (empty sequence when absent). -/
def eval_module (fuel : Nat) (m : Module) (doc : Node) : Res := do
  let ctx0 : Context := .mk (some (.node doc)) [] m.functions m.rules none none
  let ctx ← eval_module_vars fuel m.vars ctx0
  match m.expr with
  | none => .ok []
  | some e => eval_expr fuel e ctx

end XF

namespace XF

/-! ## Arena model of node identity (for the frame/freshness claim)

The pure tree model above cannot express Python object identity, so the
two functions that create or link nodes during construction —
`deep_copy` and the assembly part of `eval_constructor` (lines 305-324 of
`eval.py`) — are modelled once more over an explicit object store: a node
is an index into a list of records, object creation appends a record, and
attribute assignment (`node.attrs[k] = v`, `copied.children = ...`,
`child.parent = node`) is an in-place update of the addressed record, in
the exact statement order of the source.  The contents fed to the
constructor are the already evaluated sequences (node items as store
indices, atomics with their stringification), which is precisely the data
the source loop consumes. -/

/-- A stored node record (the mutable object). -/
structure NRec where
  kind : String
  name : Option String
  value : Option String
  children : List Nat
  attrs : List (String × String)
  parent : Option Nat
deriving DecidableEq

/-- The object store; a node's identity is its index. -/
abbrev Store := List NRec

/-- In-place update of one record. -/
def store_set : Store → Nat → (NRec → NRec) → Store
  | [], _, _ => []
  | r :: rest, 0, f => f r :: rest
  | r :: rest, i + 1, f => r :: store_set rest i f

/-- Sequential copy of a list of child nodes. -/
def dc_list (copy1 : Store → Nat → Option (Store × Nat)) :
    Store → List Nat → Option (Store × List Nat)
  | st, [] => some (st, [])
  | st, c :: rest => do
    let p ← copy1 st c
    let q ← dc_list copy1 p.1 rest
    some (q.1, p.2 :: q.2)

/-- `deep_copy` over the store: allocate the copy (fresh attrs dict,
no children, no parent), then, when recursing, copy the children, assign
them to the copy, and set each one's parent to the copy — each step a
store operation in source order.  Fuel-indexed; `none` is exhaustion. -/
def dc_arena : Bool → Nat → Store → Nat → Option (Store × Nat)
  | _, 0, _, _ => none
  | recurse, fuel + 1, st, src => do
    let r ← st.get? src
    let cid := st.length
    let st1 := st ++ [⟨r.kind, r.name, r.value, [], r.attrs, none⟩]
    if recurse then do
      let p ← dc_list (dc_arena true fuel) st1 r.children
      let st3 := store_set p.1 cid (fun c => { c with children := p.2 })
      let st4 := p.2.foldl (fun s c => store_set s c (fun x => { x with parent := some cid })) st3
      some (st4, cid)
    else some (st1, cid)

/-- One already evaluated sequence item fed to the constructor: a node
(by store index) or an atomic with its `to_string` rendering. -/
inductive ItemA where
  | nodeRef (id : Nat)
  | atom (s : String)

/-- One already evaluated constructor content: a literal text piece, or an
evaluated expression's sequence. -/
inductive ContentA where
  | text (s : String)
  | eval (items : List ItemA)

/-- The per-item branch of the constructor's content loop: nodes are
deep-copied, atomics become fresh text nodes. -/
def items_arena (fuel : Nat) : Store → List ItemA → Option (Store × List Nat)
  | st, [] => some (st, [])
  | st, .nodeRef i :: rest => do
    let p ← dc_arena true fuel st i
    let q ← items_arena fuel p.1 rest
    some (q.1, p.2 :: q.2)
  | st, .atom s :: rest => do
    let tid := st.length
    let q ← items_arena fuel (st ++ [⟨"text", none, some s, [], [], none⟩]) rest
    some (q.1, tid :: q.2)

/-- The constructor's content loop over the store. -/
def contents_arena (fuel : Nat) : Store → List ContentA → Option (Store × List Nat)
  | st, [] => some (st, [])
  | st, .text s :: rest => do
    let tid := st.length
    let q ← contents_arena fuel (st ++ [⟨"text", none, some s, [], [], none⟩]) rest
    some (q.1, tid :: q.2)
  | st, .eval items :: rest => do
    let p ← items_arena fuel st items
    let q ← contents_arena fuel p.1 rest
    some (q.1, p.2 ++ q.2)

/-- The assembly part of `eval_constructor` over the store: allocate the
fresh element, set its attributes in order, build the children (literal
text nodes, deep copies of node results, text nodes for atomics), set
every child's parent to the element, then attach the children list. -/
def eval_constructor_arena (fuel : Nat) (st : Store) (name : String)
    (attrs : List (String × String)) (contents : List ContentA) :
    Option (Store × Nat) :=
  let nid := st.length
  let st0 := st ++ [⟨"element", some name, none, [], [], none⟩]
  let st1 := attrs.foldl
    (fun s kv => store_set s nid (fun r => { r with attrs := dict_insert r.attrs kv.1 kv.2 })) st0
  match contents_arena fuel st1 contents with
  | none => none
  | some (st2, children) =>
    let st3 := children.foldl
      (fun s c => store_set s c (fun x => { x with parent := some nid })) st2
    some (store_set st3 nid (fun r => { r with children := children }), nid)

/-- Reachability along stored `children` and `parent` links. -/
inductive ReachesA (st : Store) : Nat → Nat → Prop
  | refl (i : Nat) : ReachesA st i i
  | child {i j c : Nat} {r : NRec} : ReachesA st i j → st.get? j = some r →
      c ∈ r.children → ReachesA st i c
  | up {i j p : Nat} {r : NRec} : ReachesA st i j → st.get? j = some r →
      r.parent = some p → ReachesA st i p

/-- Every record at or above `base` points (children and parent) only at
or above `base`: the freshly built region never references the input
region. -/
def region_closed (base : Nat) (st : Store) : Prop :=
  ∀ j r, base ≤ j → st.get? j = some r →
    (∀ c ∈ r.children, base ≤ c) ∧ (∀ p, r.parent = some p → base ≤ p)

/-! ## Concrete programs and inputs used by the theorems below -/

/-- The empty context (no variables, functions or rules, no context
item). -/
def ctx0 : Context := .mk none [] [] [] none none

/-- The `for n in seq(1,2,3) where n > 1 return seq(position(), last())`
module body of the specification's positional scenario. -/
def for_where_expr : Expr :=
  .forExpr "n" (.funcCall "seq" [.literal (.num 1), .literal (.num 2), .literal (.num 3)])
    (some (.binaryOp ">" (.varRef "n") (.literal (.num 1))))
    (.funcCall "seq" [.funcCall "position" [], .funcCall "last" []])

/-- `string(lookup(head(groupBy(seq("ab","cd","ab"), 0)), "key"))`: the
full key of the first group is `"ab"`. -/
def groupby_key_expr : Expr :=
  .funcCall "string" [.funcCall "lookup"
    [.funcCall "head" [.funcCall "groupBy"
       [.funcCall "seq" [.literal (.str "ab"), .literal (.str "cd"), .literal (.str "ab")],
        .literal (.num 0)]],
     .literal (.str "key")]]

/-- `lookup(head(groupBy(seq("ab","cd","ab"), 0)), "items")`. -/
def groupby_items_expr : Expr :=
  .funcCall "lookup"
    [.funcCall "head" [.funcCall "groupBy"
       [.funcCall "seq" [.literal (.str "ab"), .literal (.str "cd"), .literal (.str "ab")],
        .literal (.num 0)]],
     .literal (.str "items")]

/-- An element with two attributes (the repo's own attr-wildcard test
fixture). -/
def attr_el : Node := mkNode "element" (some "root") none [] [("a", "1"), ("b", "2")] none

/-- Context whose context item is `attr_el`. -/
def attr_ctx : Context := .mk (some (.node attr_el)) [] [] [] none none

/-- The path `.` followed by an `attr` axis step with a wildcard test
(`@*`). -/
def attr_wildcard_path : Expr :=
  .pathExpr ⟨"context", none⟩ [PathStep.mk "attr" ⟨"wildcard", none⟩ []]

/-- A document node with a single child element named `a`. -/
def doc_with_a : Node :=
  mkNode "document" none none [mkNode "element" (some "a") none [] [] none] [] none

/-- Context whose context item is the document `doc_with_a` (a node that
is not an element). -/
def doc_ctx : Context := .mk (some (.node doc_with_a)) [] [] [] none none

/-- A match expression whose first target item (an element) selects a
case whose body calls the undefined function `g`, and whose second target
item (the string `"y"`) matches no case, with no default present. -/
def match_err_expr : Expr :=
  .matchExpr (.funcCall "seq" [.constructor "a" [] [], .literal (.str "y")])
    [(.typedPattern "node", .funcCall "g" [])] none

/-- A user function of no parameters whose body is `number("x")` (a body
that raises `XFDY0002` itself). -/
def zero_param_bad_body : FunctionDef := ⟨[], .funcCall "number" [.literal (.str "x")]⟩

/-- Context defining `f` as `zero_param_bad_body`. -/
def bad_body_ctx : Context := .mk none [] [("f", zero_param_bad_body)] [] none none

/-- Context defining `two`, a function with one defaulted parameter used
by the call-convention witness: `def two(a, b := "d") := seq(a, b)`. -/
def two_param_fn : FunctionDef :=
  ⟨[⟨"a", none, none⟩, ⟨"b", none, some (.literal (.str "d"))⟩],
    .funcCall "seq" [.varRef "a", .varRef "b"]⟩

/-- Context holding `two_param_fn` under the name `two`. -/
def two_ctx : Context := .mk none [] [("two", two_param_fn)] [] none none

/-- An input store for the constructor-freshness witness: a document, an
element child, and a text grandchild. -/
def input_store : Store :=
  [⟨"document", none, none, [1], [], none⟩,
   ⟨"element", some "item", none, [2], [("id", "7")], some 0⟩,
   ⟨"text", none, some "hi", [], [], some 1⟩]

end XF

namespace XF

/-- Per-character specification of text escaping (used to characterise
the replacement chain of `_escape_text`). -/
def esc_text_char (c : Char) : String :=
  if c = '&' then "&amp;"
  else if c = '<' then "&lt;"
  else if c = '>' then "&gt;"
  else String.mk [c]

/-- Per-character specification of attribute escaping. -/
def esc_attr_char (c : Char) : String :=
  if c = '&' then "&amp;"
  else if c = '<' then "&lt;"
  else if c = '>' then "&gt;"
  else if c = '"' then "&quot;"
  else String.mk [c]

end XF

namespace XF

/-! ## Theorems

Helper lemmas first, then one theorem (with witness or counterexample
where required) per claim. -/

theorem serialize_list_ofList (l : List Node) :
    serialize_list (NodeList.ofList l) = str_cat (l.map serialize) := by
  induction l with
  | nil => rfl
  | cons h t ih => simp [NodeList.ofList, serialize_list, str_cat, ih]

/-- C1: `groupBy` does return one `{key, items}` map per distinct key in
first-occurrence order and `lookup(g, "items")` returns the group's items
in order, but `string(lookup(g, "key"))` returns only the FIRST CHARACTER
of the key: `_fn_group_by` stores the bare key string under `"key"`,
`_fn_lookup` returns that string itself in sequence position, and
`to_string` takes the first item of a sequence — the first character.  On
`groupBy(seq("ab","cd","ab"), 0)` the first group's key is `"ab"`, yet
`string(lookup(g, "key"))` evaluates to `"a"` while
`lookup(g, "items")` correctly gives `["ab", "ab"]`. -/
theorem C1_groupBy_lookup_key_truncated :
    eval_expr 9 groupby_key_expr ctx0 = .ok [.str "a"] ∧
    eval_expr 9 groupby_items_expr ctx0 = .ok [.str "ab", .str "ab"] ∧
    ("a" : String) ≠ "ab" := by
  refine ⟨rfl, rfl, ?_⟩
  decide

/-- C2: on the `attr` axis a wildcard test yields the EMPTY sequence, not
the element's attributes: `apply_step` synthesizes the attribute nodes as
candidates but then filters every candidate through `_matches_test`,
where a wildcard only matches elements — so all synthesized attribute
nodes (kind `attribute`) are dropped.  On the repo's own test fixture (an
element with attributes `a` and `b`, step `@*`) the path evaluates to the
empty sequence although `attr_el` is an element with two attributes. -/
theorem C2_attr_wildcard_empty :
    eval_expr 3 attr_wildcard_path attr_ctx = .ok [] ∧
    attr_el.kind = "element" ∧
    attr_el.attrs.length = 2 := by
  exact ⟨rfl, rfl, rfl⟩

end XF

namespace XF

/-- C3 (amended): `VarRef(name)` resolves in order — variable environment,
then function table (a singleton function reference), then, when the
context item is ANY node (not only an element), the node's child elements
named `name`; only when the context item is absent or not a node is the
result the empty sequence. -/
theorem C3_varref_resolution (n : Nat) (nm : String) (ctx : Context) :
    (∀ v, dict_get? ctx.vars nm = some v →
      eval_expr (n + 1) (.varRef nm) ctx = .ok v) ∧
    (dict_get? ctx.vars nm = none → dict_mem ctx.functions nm = true →
      eval_expr (n + 1) (.varRef nm) ctx = .ok [.funcRef nm]) ∧
    (∀ nd, dict_get? ctx.vars nm = none → dict_mem ctx.functions nm = false →
      ctx.context_item = some (.node nd) →
      eval_expr (n + 1) (.varRef nm) ctx =
        .ok ((nd.children.filter (fun c => c.kind = "element" ∧ c.name = some nm)).map .node)) ∧
    (dict_get? ctx.vars nm = none → dict_mem ctx.functions nm = false →
      (∀ nd, ctx.context_item ≠ some (.node nd)) →
      eval_expr (n + 1) (.varRef nm) ctx = .ok []) := by
  refine ⟨?_, ?_, ?_, ?_⟩
  · intro v h
    simp [eval_expr, eval_step, h]
  · intro h hf
    simp [eval_expr, eval_step, h, hf]
  · intro nd h hf hc
    simp [eval_expr, eval_step, h, hf, hc]
  · intro h hf hc
    simp only [eval_expr, eval_step, h, hf]
    match hx : ctx.context_item with
    | none => rfl
    | some (.node nd) => exact absurd hx (hc nd)
    | some (.bool _) => rfl
    | some (.num _) => rfl
    | some (.str _) => rfl
    | some (.map _) => rfl
    | some (.funcRef _) => rfl
    | some .null => rfl

/-- C3 witness: resolution through the variable environment at a concrete
input. -/
theorem C3_varref_resolution_witness :
    eval_expr 1 (.varRef "x") (.mk none [("x", [.num 7])] [] [] none none) = .ok [.num 7] :=
  (C3_varref_resolution 0 "x" (.mk none [("x", [.num 7])] [] [] none none)).1 [.num 7] rfl

/-- C3 counterexample: with the document node `doc_with_a` (kind
`document`, not an element) as context item, `VarRef("a")` returns the
child element — not the empty sequence the claim requires for a
non-element context item. -/
theorem C3_varref_document_not_empty :
    eval_expr 1 (.varRef "a") doc_ctx =
      .ok [.node (mkNode "element" (some "a") none [] [] none)] ∧
    doc_with_a.kind = "document" ∧
    ([Item.node (mkNode "element" (some "a") none [] [] none)] : Seq) ≠ [] := by
  refine ⟨rfl, rfl, ?_⟩
  intro h
  exact List.noConfusion h

/-- C4: `and` and `or` short-circuit.  Whenever the left operand
evaluates to a sequence whose boolean is false, `l and r` is `[false]`
for EVERY right operand (so `r` is never evaluated), and dually for `or`;
in particular `false and f()` and `true or f()` succeed although
evaluating `f()` alone raises `XFST0003`. -/
theorem C4_short_circuit :
    (∀ (n : Nat) (l r : Expr) (ctx : Context) (v : Seq),
      eval_expr n l ctx = .ok v → to_boolean v = false →
      eval_expr (n + 1) (.binaryOp "and" l r) ctx = .ok [.bool false]) ∧
    (∀ (n : Nat) (l r : Expr) (ctx : Context) (v : Seq),
      eval_expr n l ctx = .ok v → to_boolean v = true →
      eval_expr (n + 1) (.binaryOp "or" l r) ctx = .ok [.bool true]) ∧
    eval_expr 3 (.binaryOp "and" (.literal (.bool false)) (.funcCall "f" [])) ctx0 =
      .ok [.bool false] ∧
    eval_expr 3 (.binaryOp "or" (.literal (.bool true)) (.funcCall "f" [])) ctx0 =
      .ok [.bool true] ∧
    eval_expr 3 (.funcCall "f" []) ctx0 = .error (.err "XFST0003: unknown function f") := by
  refine ⟨?_, ?_, rfl, rfl, rfl⟩
  · intro n l r ctx v h hb
    simp [eval_expr, eval_step, h, hb, Bind.bind, Except.bind]
  · intro n l r ctx v h hb
    simp [eval_expr, eval_step, h, hb, Bind.bind, Except.bind]

/-- C4 witness: the short-circuit conjunct applied to `false and f()`. -/
theorem C4_short_circuit_witness :
    eval_expr 2 (.binaryOp "and" (.literal (.bool false)) (.funcCall "g" [])) ctx0 =
      .ok [.bool false] :=
  C4_short_circuit.1 1 (.literal (.bool false)) (.funcCall "g" []) ctx0 [.bool false] rfl rfl

end XF

namespace XF

theorem position_call_eval (m : Nat) (ctx : Context)
    (h : dict_get? ctx.functions "position" = none) :
    eval_expr (m + 2) (.funcCall "position" []) ctx = .ok (fn_position ctx) := by
  rw [show eval_expr (m + 2) (.funcCall "position" []) ctx =
        call_function (eval_expr (m + 1)) (m + 1) "position" [] ctx from rfl]
  rw [call_function, h]
  rfl

theorem cons_map_range (n idx : Nat) (f : Nat → Item) :
    f idx :: (List.range n).map (fun j => f (idx + 1 + j)) =
    (List.range (n + 1)).map (fun j => f (idx + j)) := by
  rw [List.range_succ_eq_map, List.map_cons, List.map_map]
  refine congrArg₂ List.cons ?_ ?_
  · show f idx = f (idx + 0)
    exact congrArg f (by omega)
  · apply List.map_congr_left
    intro j _
    show f (idx + 1 + j) = f (idx + Nat.succ j)
    exact congrArg f (by omega)

theorem for_items_position (m : Nat) (nm : String) (ctx : Context) (total : Nat)
    (h : dict_get? ctx.functions "position" = none) :
    ∀ (items : List Item) (idx : Nat),
      eval_for_items (eval_expr (m + 2)) nm none (.funcCall "position" []) ctx total idx items =
        .ok ((List.range items.length).map (fun j => Item.num ((idx + j : Nat)))) := by
  intro items
  induction items with
  | nil => intro idx; rfl
  | cons it rest ih =>
    intro idx
    have hb : eval_expr (m + 2) (.funcCall "position" [])
        (.mk (some it) (dict_insert ctx.vars nm [it]) ctx.functions ctx.rules
          (some idx) (some total)) = .ok [.num (idx : Nat)] :=
      position_call_eval m _ h
    simp only [eval_for_items, hb, ih (idx + 1), Bind.bind, Except.bind, pure, Except.pure,
      List.length_cons, if_true, List.singleton_append]
    exact congrArg Except.ok (cons_map_range rest.length idx (fun k => Item.num (k : Nat)))

end XF

namespace XF

/-- C5: a `for` iteration binds the loop variable, sets the context item
and the positional pair `(position, last)` per pre-filter index and total,
and evaluates the `where` filter in that per-item context: the
specification's example `for n in seq(1,2,3) where n > 1 return
seq(position(), last())` evaluates to `[2, 3, 3, 3]`, and for every
sequence `s`, `for i in s return position()` is `[1, …, count(s)]`. -/
theorem C5_for_positional :
    eval_expr 9 for_where_expr ctx0 = .ok [.num 2, .num 3, .num 3, .num 3] ∧
    (∀ (m : Nat) (nm : String) (e : Expr) (ctx : Context) (s : Seq),
      dict_get? ctx.functions "position" = none →
      eval_expr (m + 2) e ctx = .ok s →
      eval_expr (m + 3) (.forExpr nm e none (.funcCall "position" [])) ctx =
        .ok ((List.range s.length).map (fun j => Item.num ((j + 1 : Nat))))) := by
  refine ⟨rfl, ?_⟩
  intro m nm e ctx s h hs
  rw [show eval_expr (m + 3) (.forExpr nm e none (.funcCall "position" [])) ctx =
        (do
          let s' ← eval_expr (m + 2) e ctx
          eval_for_items (eval_expr (m + 2)) nm none (.funcCall "position" []) ctx
            s'.length 1 s') from rfl]
  rw [hs]
  simp only [Bind.bind, Except.bind]
  rw [for_items_position m nm ctx s.length h s 1]
  exact congrArg Except.ok
    (List.map_congr_left fun j _ => congrArg (fun k : Nat => Item.num (k : Nat)) (by omega))

/-- C5 witness: the positional conjunct applied to the singleton sequence
`[5]`. -/
theorem C5_for_positional_witness :
    eval_expr 3 (.forExpr "i" (.literal (.num 5)) none (.funcCall "position" [])) ctx0 =
      .ok [.num 1] :=
  C5_for_positional.2 0 "i" (.literal (.num 5)) ctx0 [.num 5] rfl rfl

end XF

namespace XF

/-- C10: an attribute node synthesized on the `attr` axis is built with no
parent link: a name-test step over an element with the attribute present
yields exactly the parentless synthesized node, a subsequent `parent`
(`..`) step on it yields the empty sequence, and a root-start path (`/`)
with it as context item yields the node itself (`_root_of` stops at the
missing parent) rather than any document node. -/
theorem C10_synthesized_attr_parentless (ev : EvalFn) (nm v : String) (el : Node)
    (ctx : Context) (hk : el.kind = "element") (ha : dict_get? el.attrs nm = some v) :
    apply_step ev [.node el] (PathStep.mk "attr" ⟨"name", some nm⟩ []) ctx =
      .ok [.node (mkNode "attribute" (some nm) (some v) [] [] none)] ∧
    (mkNode "attribute" (some nm) (some v) [] [] none).parent = none ∧
    apply_step ev [.node (mkNode "attribute" (some nm) (some v) [] [] none)]
      (PathStep.mk "parent" ⟨"node", none⟩ []) ctx = .ok [] ∧
    eval_path ev ⟨"root", none⟩ []
      (.mk (some (.node (mkNode "attribute" (some nm) (some v) [] [] none)))
        ctx.vars ctx.functions ctx.rules ctx.position ctx.last) =
      .ok [.node (mkNode "attribute" (some nm) (some v) [] [] none)] := by
  refine ⟨?_, rfl, rfl, rfl⟩
  show (do
    let kept ← filter_predicates ev ctx []
      ((step_candidates el (PathStep.mk "attr" ⟨"name", some nm⟩ [])).filter
        (fun c => matches_test c ⟨"name", some nm⟩))
    let restOut ← apply_step ev [] (PathStep.mk "attr" ⟨"name", some nm⟩ []) ctx
    .ok (kept.map Item.node ++ restOut) : Res) = _
  have hc : step_candidates el (PathStep.mk "attr" ⟨"name", some nm⟩ []) =
      [mkNode "attribute" (some nm) (some v) [] [] none] := by
    simp [step_candidates, PathStep.axis, PathStep.test, hk, ha]
  rw [hc]
  have hfil : List.filter (fun c => matches_test c ⟨"name", some nm⟩)
      [mkNode "attribute" (some nm) (some v) [] [] none] =
      [mkNode "attribute" (some nm) (some v) [] [] none] := by
    simp [matches_test, mkNode, Node.name, List.filter]
  rw [hfil]
  simp [filter_predicates, all_predicates, apply_step, Bind.bind, Except.bind]

/-- C10 witness: the theorem applied to the two-attribute element
`attr_el` and its attribute `a`. -/
theorem C10_synthesized_attr_parentless_witness :
    apply_step (eval_expr 0) [.node attr_el] (PathStep.mk "attr" ⟨"name", some "a"⟩ []) ctx0 =
      .ok [.node (mkNode "attribute" (some "a") (some "1") [] [] none)] :=
  (C10_synthesized_attr_parentless (eval_expr 0) "a" "1" attr_el ctx0 rfl rfl).1

end XF

namespace XF

theorem bind_defaults_ok (ev : EvalFn) (ctx : Context) (dv : Param → Seq) :
    ∀ (ps : List Param) (env : List (String × Seq)),
      (∀ p ∈ ps, ∃ d, p.default = some d ∧ ev d ctx = .ok (dv p)) →
      bind_defaults ev ctx ps env =
        .ok (ps.foldl (fun e p => dict_insert e p.name (dv p)) env) := by
  intro ps
  induction ps with
  | nil => intro env _; rfl
  | cons p rest ih =>
    intro env hall
    obtain ⟨d, hd, hv⟩ := hall p (List.mem_cons_self p rest)
    simp only [bind_defaults, hd, hv, Bind.bind, Except.bind, List.foldl_cons]
    exact ih _ (fun q hq => hall q (List.mem_cons_of_mem _ hq))

theorem bind_defaults_err (ev : EvalFn) (ctx : Context) :
    ∀ (qs : List Param) (p : Param) (rest : List Param) (env : List (String × Seq)),
      p.default = none →
      (∀ q ∈ qs, ∃ d v, q.default = some d ∧ ev d ctx = .ok v) →
      bind_defaults ev ctx (qs ++ p :: rest) env = .error (.err "XFDY0002: wrong arity") := by
  intro qs
  induction qs with
  | nil =>
    intro p rest env hp _
    simp [bind_defaults, hp]
  | cons q qs ih =>
    intro p rest env hp hall
    obtain ⟨d, v, hd, hv⟩ := hall q (List.mem_cons_self q qs)
    simp only [List.cons_append, bind_defaults, hd, hv, Bind.bind, Except.bind]
    exact ih p rest _ hp (fun r hr => hall r (List.mem_cons_of_mem _ hr))

/-- C6 (amended): the argument-binding phase of a user-function call
raises `XFDY0002` exactly when the argument count exceeds the parameter
count, or when, processing the unsupplied trailing parameters left to
right (each present default evaluated in the caller's context), one with
no default is reached; when every unsupplied parameter has a default that
evaluates successfully, the supplied arguments are bound positionally,
each missing trailing parameter is bound to its default's value, and the
body is evaluated in the extended environment (the call returning that
evaluation's outcome, whatever it is). -/
theorem C6_call_convention (ev : EvalFn) (k : Nat) (name : String) (args : List Seq)
    (ctx : Context) (func : FunctionDef)
    (hf : dict_get? ctx.functions name = some func) :
    (args.length > func.params.length →
      call_function ev (k + 1) name args ctx = .error (.err "XFDY0002: wrong arity")) ∧
    (∀ (qs : List Param) (p : Param) (rest : List Param),
      args.length ≤ func.params.length →
      func.params.drop args.length = qs ++ p :: rest →
      p.default = none →
      (∀ q ∈ qs, ∃ d v, q.default = some d ∧ ev d ctx = .ok v) →
      call_function ev (k + 1) name args ctx = .error (.err "XFDY0002: wrong arity")) ∧
    (∀ (dv : Param → Seq),
      args.length ≤ func.params.length →
      (∀ p ∈ func.params.drop args.length, ∃ d, p.default = some d ∧ ev d ctx = .ok (dv p)) →
      call_function ev (k + 1) name args ctx =
        ev func.body (with_vars ctx
          ((func.params.drop args.length).foldl (fun e p => dict_insert e p.name (dv p))
            ((func.params.zip args).foldl (fun e pa => dict_insert e pa.1.name pa.2)
              ctx.vars)))) := by
  refine ⟨?_, ?_, ?_⟩
  · intro h
    simp [call_function, hf, h]
  · intro qs p rest hle hdrop hp hall
    simp only [call_function, hf, gt_iff_lt, if_neg (Nat.not_lt.mpr hle)]
    rw [hdrop, bind_defaults_err ev ctx qs p rest _ hp hall]
    rfl
  · intro dv hle hall
    simp only [call_function, hf, gt_iff_lt, if_neg (Nat.not_lt.mpr hle)]
    rw [bind_defaults_ok ev ctx dv _ _ hall]
    rfl

/-- C6 witness: `two(u)` with `def two(a, b := "d") := seq(a, b)` binds
`a` positionally, `b` to its default, and evaluates the body. -/
theorem C6_call_convention_witness :
    call_function (eval_expr 5) 1 "two" [[.str "u"]] two_ctx = .ok [.str "u", .str "d"] := by
  have h := (C6_call_convention (eval_expr 5) 0 "two" [[.str "u"]] two_ctx two_param_fn
    rfl).2.2 (fun _ => [.str "d"]) (by decide)
    (by
      intro p hp
      simp only [two_param_fn, List.drop, List.mem_singleton] at hp
      subst hp
      exact ⟨.literal (.str "d"), rfl, rfl⟩)
  exact h.trans rfl

/-- C6 counterexample: `f()` with `def f() := number("x")` raises
`XFDY0002` (from the body's failed number conversion) although the
argument count, zero, does not exceed the parameter count, zero, and no
parameter is left unsupplied — so the claimed "if and only if" fails as
stated. -/
theorem C6_body_raises_without_arity_violation :
    zero_param_bad_body.params.length = 0 ∧
    eval_expr 9 (.funcCall "f" []) bad_body_ctx =
      .error (.err "XFDY0002: number conversion") := ⟨rfl, rfl⟩

end XF

namespace XF

theorem eval_match_items_all_ok (ev : EvalFn) (cases : List (Pattern × Expr))
    (dflt : Option Expr) (ctx : Context) (out : Item → Seq) :
    ∀ s : List Item,
      (∀ u ∈ s, eval_match_one ev cases dflt ctx u = .ok (out u)) →
      eval_match_items ev cases dflt ctx s = .ok (s.flatMap out) := by
  intro s
  induction s with
  | nil => intro _; rfl
  | cons t rest ih =>
    intro hall
    simp only [eval_match_items, hall t (List.mem_cons_self t rest),
      ih (fun u hu => hall u (List.mem_cons_of_mem _ hu)), Bind.bind, Except.bind,
      List.flatMap_cons]

theorem eval_match_items_no_case (ev : EvalFn) (cases : List (Pattern × Expr))
    (ctx : Context) :
    ∀ (s1 : List Item) (t : Item) (s2 : List Item),
      (∀ u ∈ s1, ∃ o, eval_match_one ev cases none ctx u = .ok o) →
      first_case cases t = none →
      eval_match_items ev cases none ctx (s1 ++ t :: s2) =
        .error (.err "XFDY0001: no matching case") := by
  intro s1
  induction s1 with
  | nil =>
    intro t s2 _ hfc
    simp [eval_match_items, eval_match_one, hfc, Bind.bind, Except.bind]
  | cons u rest ih =>
    intro t s2 hall hfc
    obtain ⟨o, ho⟩ := hall u (List.mem_cons_self u rest)
    simp only [List.cons_append, eval_match_items, ho, Bind.bind, Except.bind]
    rw [List.append_eq, ih t s2 (fun w hw => hall w (List.mem_cons_of_mem _ hw)) hfc]

theorem apply_items_all_ok (ev : EvalFn) (rules : List RuleDef) (ctx : Context)
    (out : Item → Seq) :
    ∀ s : List Item,
      (∀ u ∈ s, ∃ b body, first_rule rules u = some (b, body) ∧
        ev body (.mk (some u) (bindings_env ctx.vars b) ctx.functions ctx.rules
          ctx.position ctx.last) = .ok (out u)) →
      apply_items ev rules ctx s = .ok (s.flatMap out) := by
  intro s
  induction s with
  | nil => intro _; rfl
  | cons t rest ih =>
    intro hall
    obtain ⟨b, body, hfr, hev⟩ := hall t (List.mem_cons_self t rest)
    simp only [apply_items, hfr, hev, ih (fun u hu => hall u (List.mem_cons_of_mem _ hu)),
      Bind.bind, Except.bind, List.flatMap_cons]

theorem apply_items_no_rule (ev : EvalFn) (rules : List RuleDef) (ctx : Context) :
    ∀ (s1 : List Item) (t : Item) (s2 : List Item),
      (∀ u ∈ s1, ∃ b body o, first_rule rules u = some (b, body) ∧
        ev body (.mk (some u) (bindings_env ctx.vars b) ctx.functions ctx.rules
          ctx.position ctx.last) = .ok o) →
      first_rule rules t = none →
      apply_items ev rules ctx (s1 ++ t :: s2) =
        .error (.err "XFDY0001: no matching rule") := by
  intro s1
  induction s1 with
  | nil =>
    intro t s2 _ hfr
    simp [apply_items, hfr]
  | cons u rest ih =>
    intro t s2 hall hfr
    obtain ⟨b, body, o, hfru, hev⟩ := hall u (List.mem_cons_self u rest)
    simp only [List.cons_append, apply_items, hfru, hev, Bind.bind, Except.bind]
    rw [List.append_eq, ih t s2 (fun w hw => hall w (List.mem_cons_of_mem _ hw)) hfr]

/-- C7 (amended): a `match` expression evaluates its target and then each
item in order against the cases; an item whose first matching case exists
contributes that case's body evaluated with the pattern's bindings in
scope; an item matching no case with a default present contributes the
default body evaluated with that item as context item and the caller's
environment unchanged (concretely, `match "y": case @id => "x"
default => "d"` yields `"d"`); when the bodies selected for the earlier
items all evaluate without error, an item matching no case with no
default present raises `XFDY0001` (an error from an earlier body
propagates instead); when every item's selected body succeeds the outputs
concatenate in item order. `apply` behaves the same over the first
matching rule of the selected rule set — the second argument when
nonempty, else `"main"` (a missing set acting as the empty rule list). -/
theorem C7_match_apply_dispatch :
    (∀ (n : Nat) (tgt : Expr) (cases : List (Pattern × Expr)) (dflt : Option Expr)
        (ctx : Context),
      eval_expr (n + 1) (.matchExpr tgt cases dflt) ctx =
        (do
          let s ← eval_expr n tgt ctx
          eval_match_items (eval_expr n) cases dflt ctx s)) ∧
    (∀ (ev : EvalFn) (cases : List (Pattern × Expr)) (dflt : Option Expr) (ctx : Context)
        (t : Item) (b : List (String × Seq)) (body : Expr),
      first_case cases t = some (b, body) →
      eval_match_one ev cases dflt ctx t =
        ev body (.mk (some t) (bindings_env ctx.vars b) ctx.functions ctx.rules
          ctx.position ctx.last)) ∧
    (∀ (ev : EvalFn) (cases : List (Pattern × Expr)) (d : Expr) (ctx : Context)
        (t : Item),
      first_case cases t = none →
      eval_match_one ev cases (some d) ctx t =
        ev d (.mk (some t) ctx.vars ctx.functions ctx.rules ctx.position ctx.last)) ∧
    (eval_expr 2 (.matchExpr (.literal (.str "y"))
        [(.attributePattern "id", .literal (.str "x"))]
        (some (.literal (.str "d")))) ctx0 = .ok [.str "d"]) ∧
    (∀ (ev : EvalFn) (cases : List (Pattern × Expr)) (ctx : Context)
        (s1 : List Item) (t : Item) (s2 : List Item),
      (∀ u ∈ s1, ∃ o, eval_match_one ev cases none ctx u = .ok o) →
      first_case cases t = none →
      eval_match_items ev cases none ctx (s1 ++ t :: s2) =
        .error (.err "XFDY0001: no matching case")) ∧
    (∀ (ev : EvalFn) (cases : List (Pattern × Expr)) (dflt : Option Expr) (ctx : Context)
        (out : Item → Seq) (s : List Item),
      (∀ u ∈ s, eval_match_one ev cases dflt ctx u = .ok (out u)) →
      eval_match_items ev cases dflt ctx s = .ok (s.flatMap out)) ∧
    (∀ (ev : EvalFn) (a1 : Seq) (ctx : Context),
      fn_apply ev [a1] ctx =
        apply_items ev ((dict_get? ctx.rules "main").getD []) ctx a1) ∧
    (∀ (ev : EvalFn) (a1 : Seq) (x : Item) (xs : Seq) (ctx : Context),
      fn_apply ev [a1, x :: xs] ctx =
        apply_items ev ((dict_get? ctx.rules (to_string (x :: xs))).getD []) ctx a1) ∧
    (∀ (ev : EvalFn) (rules : List RuleDef) (ctx : Context)
        (s1 : List Item) (t : Item) (s2 : List Item),
      (∀ u ∈ s1, ∃ b body o, first_rule rules u = some (b, body) ∧
        ev body (.mk (some u) (bindings_env ctx.vars b) ctx.functions ctx.rules
          ctx.position ctx.last) = .ok o) →
      first_rule rules t = none →
      apply_items ev rules ctx (s1 ++ t :: s2) =
        .error (.err "XFDY0001: no matching rule")) ∧
    (∀ (ev : EvalFn) (rules : List RuleDef) (ctx : Context) (out : Item → Seq)
        (s : List Item),
      (∀ u ∈ s, ∃ b body, first_rule rules u = some (b, body) ∧
        ev body (.mk (some u) (bindings_env ctx.vars b) ctx.functions ctx.rules
          ctx.position ctx.last) = .ok (out u)) →
      apply_items ev rules ctx s = .ok (s.flatMap out)) := by
  refine ⟨fun n tgt cases dflt ctx => rfl, ?_, ?_, rfl, eval_match_items_no_case,
    eval_match_items_all_ok, fun ev a1 ctx => rfl, fun ev a1 x xs ctx => rfl,
    apply_items_no_rule, apply_items_all_ok⟩
  · intro ev cases dflt ctx t b body hfc
    simp [eval_match_one, hfc]
  · intro ev cases d ctx t hfc
    simp [eval_match_one, hfc]

/-- C7 witness: the default conjunct applied to the string item `"y"`
against a single attribute-pattern case (no case matches, so the default
body `"d"` is evaluated), and the no-case conjunct applied to the same
item and case with no default. -/
theorem C7_match_apply_dispatch_witness :
    eval_match_one (eval_expr 1) [(.attributePattern "id", .literal (.str "x"))]
      (some (.literal (.str "d"))) ctx0 (.str "y") = .ok [.str "d"] ∧
    eval_match_items (eval_expr 1) [(.attributePattern "id", .literal (.str "x"))] none ctx0
      [.str "y"] = .error (.err "XFDY0001: no matching case") :=
  ⟨(C7_match_apply_dispatch.2.2.1 (eval_expr 1)
      [(.attributePattern "id", .literal (.str "x"))] (.literal (.str "d")) ctx0
      (.str "y") rfl).trans rfl,
   C7_match_apply_dispatch.2.2.2.2.1 (eval_expr 1)
     [(.attributePattern "id", .literal (.str "x"))]
     ctx0 [] (.str "y") [] (fun u hu => absurd hu (List.not_mem_nil u)) rfl⟩

/-- C7 counterexample: in `match seq(<a/>, "y"): case node() => g()` with
no default, the second item `"y"` matches no case and no default is
present, yet the evaluation raises `XFST0003` (from the first item's body
`g()`) and not `XFDY0001` — the claimed "if and only if" fails as
stated. -/
theorem C7_earlier_body_error_preempts :
    eval_expr 9 match_err_expr ctx0 = .error (.err "XFST0003: unknown function g") ∧
    first_case [(.typedPattern "node", .funcCall "g" [])] (.str "y") = none ∧
    Err.err "XFST0003: unknown function g" ≠ Err.err "XFDY0001: no matching case" := by
  refine ⟨rfl, rfl, ?_⟩
  intro h
  injection h with h2
  exact absurd h2 (by decide)

end XF

namespace XF

theorem replace_char_append (c : Char) (rep l1 l2 : List Char) :
    replace_char c rep (l1 ++ l2) = replace_char c rep l1 ++ replace_char c rep l2 := by
  induction l1 with
  | nil => rfl
  | cons x t ih =>
    by_cases h : x = c
    · simp [replace_char, h, ih, List.append_assoc]
    · simp [replace_char, h, ih]

theorem replace_char_not_mem {c : Char} {l : List Char} (h : c ∉ l) (rep : List Char) :
    replace_char c rep l = l := by
  induction l with
  | nil => rfl
  | cons x t ih =>
    have hx : ¬(x = c) := fun e => h (e ▸ List.mem_cons_self x t)
    simp [replace_char, hx, ih (fun hm => h (List.mem_cons_of_mem _ hm))]

theorem escape_text_chain (l : List Char) :
    replace_char '>' "&gt;".data (replace_char '<' "&lt;".data
      (replace_char '&' "&amp;".data l)) = (str_cat (l.map esc_text_char)).data := by
  induction l with
  | nil => rfl
  | cons x t ih =>
    by_cases h1 : x = '&'
    · subst h1
      rw [show replace_char '&' "&amp;".data ('&' :: t) =
            "&amp;".data ++ replace_char '&' "&amp;".data t from by simp [replace_char]]
      rw [replace_char_append, replace_char_not_mem (by decide : ('<' : Char) ∉ "&amp;".data),
        replace_char_append, replace_char_not_mem (by decide : ('>' : Char) ∉ "&amp;".data),
        ih]
      rfl
    · by_cases h2 : x = '<'
      · subst h2
        rw [show replace_char '&' "&amp;".data ('<' :: t) =
              '<' :: replace_char '&' "&amp;".data t from by simp [replace_char]]
        rw [show replace_char '<' "&lt;".data ('<' :: replace_char '&' "&amp;".data t) =
              "&lt;".data ++ replace_char '<' "&lt;".data (replace_char '&' "&amp;".data t)
            from by simp [replace_char]]
        rw [replace_char_append, replace_char_not_mem (by decide : ('>' : Char) ∉ "&lt;".data),
          ih]
        rfl
      · by_cases h3 : x = '>'
        · subst h3
          rw [show replace_char '&' "&amp;".data ('>' :: t) =
                '>' :: replace_char '&' "&amp;".data t from by simp [replace_char]]
          rw [show replace_char '<' "&lt;".data ('>' :: replace_char '&' "&amp;".data t) =
                '>' :: replace_char '<' "&lt;".data (replace_char '&' "&amp;".data t)
              from by simp [replace_char]]
          rw [show replace_char '>' "&gt;".data ('>' :: replace_char '<' "&lt;".data
                (replace_char '&' "&amp;".data t)) =
                "&gt;".data ++ replace_char '>' "&gt;".data (replace_char '<' "&lt;".data
                  (replace_char '&' "&amp;".data t)) from by simp [replace_char]]
          rw [ih]
          rfl
        · rw [show replace_char '&' "&amp;".data (x :: t) =
                x :: replace_char '&' "&amp;".data t from by simp [replace_char, h1]]
          rw [show replace_char '<' "&lt;".data (x :: replace_char '&' "&amp;".data t) =
                x :: replace_char '<' "&lt;".data (replace_char '&' "&amp;".data t)
              from by simp [replace_char, h2]]
          rw [show replace_char '>' "&gt;".data (x :: replace_char '<' "&lt;".data
                (replace_char '&' "&amp;".data t)) =
                x :: replace_char '>' "&gt;".data (replace_char '<' "&lt;".data
                  (replace_char '&' "&amp;".data t)) from by simp [replace_char, h3]]
          rw [ih]
          simp [str_cat, esc_text_char, h1, h2, h3, String.data_append]

theorem quot_chain (l : List Char) :
    replace_char '"' "&quot;".data ((str_cat (l.map esc_text_char)).data) =
      (str_cat (l.map esc_attr_char)).data := by
  induction l with
  | nil => rfl
  | cons x t ih =>
    rw [show (str_cat ((x :: t).map esc_text_char)).data =
          (esc_text_char x).data ++ (str_cat (t.map esc_text_char)).data
        from by simp [str_cat, String.data_append]]
    rw [replace_char_append, ih]
    rw [show (str_cat ((x :: t).map esc_attr_char)).data =
          (esc_attr_char x).data ++ (str_cat (t.map esc_attr_char)).data
        from by simp [str_cat, String.data_append]]
    congr 1
    by_cases h1 : x = '&'
    · subst h1
      rfl
    · by_cases h2 : x = '<'
      · subst h2
        rfl
      · by_cases h3 : x = '>'
        · subst h3
          rfl
        · by_cases h4 : x = '"'
          · subst h4
            rfl
          · rw [show esc_text_char x = String.mk [x] from by
                simp [esc_text_char, h1, h2, h3]]
            rw [show esc_attr_char x = String.mk [x] from by
                simp [esc_attr_char, h1, h2, h3, h4]]
            simp [replace_char, h4]

theorem escape_text_spec (s : String) :
    escape_text s = str_cat (s.data.map esc_text_char) :=
  (congrArg String.mk (escape_text_chain s.data)).trans rfl

theorem escape_attr_spec (s : String) :
    escape_attr s = str_cat (s.data.map esc_attr_char) := by
  rw [show escape_attr s =
        String.mk (replace_char '"' "&quot;".data (escape_text s).data) from rfl]
  rw [escape_text_spec]
  exact (congrArg String.mk (quot_chain s.data)).trans rfl

end XF

namespace XF

/-- C8: serialization emits a document as the concatenation of its
serialized children; a childless element in self-closing form and a
non-empty element as open tag, serialized children, close tag, the
attributes appearing in insertion order, each rendered
` name="escaped-value"` with double quotes; text content with `&`, `<`,
`>` escaped per character and attribute values additionally escaping `"`
(the per-character characterisations show the chained `str.replace`
calls never double-escape).  The equations produce exactly these pieces
and nothing else, so no XML declaration is ever emitted. -/
theorem C8_serialization :
    (∀ (nm v : Option String) (ch : List Node) (attrs : List (String × String))
        (p : Option Node),
      serialize (mkNode "document" nm v ch attrs p) = str_cat (ch.map serialize)) ∧
    (∀ (s : String) (nm : Option String) (ch : List Node)
        (attrs : List (String × String)) (p : Option Node),
      serialize (mkNode "text" nm (some s) ch attrs p) = escape_text s) ∧
    (∀ (nm : String) (v : Option String) (attrs : List (String × String))
        (p : Option Node),
      serialize (mkNode "element" (some nm) v [] attrs p) =
        "<" ++ nm ++
          str_cat (attrs.map (fun kv => " " ++ kv.1 ++ "=\"" ++ escape_attr kv.2 ++ "\"")) ++
          "/>") ∧
    (∀ (nm : String) (v : Option String) (ch : List Node)
        (attrs : List (String × String)) (p : Option Node), ch ≠ [] →
      serialize (mkNode "element" (some nm) v ch attrs p) =
        "<" ++ nm ++
          str_cat (attrs.map (fun kv => " " ++ kv.1 ++ "=\"" ++ escape_attr kv.2 ++ "\"")) ++
          ">" ++ str_cat (ch.map serialize) ++ "</" ++ nm ++ ">") ∧
    (∀ s : String, escape_text s = str_cat (s.data.map esc_text_char)) ∧
    (∀ s : String, escape_attr s = str_cat (s.data.map esc_attr_char)) := by
  refine ⟨?_, ?_, ?_, ?_, escape_text_spec, escape_attr_spec⟩
  · intro nm v ch attrs p
    rw [show serialize (mkNode "document" nm v ch attrs p) =
          serialize_list (NodeList.ofList ch) from rfl]
    exact serialize_list_ofList ch
  · intro s nm ch attrs p
    rfl
  · intro nm v attrs p
    rfl
  · intro nm v ch attrs p hne
    match ch with
    | c :: t =>
      rw [show serialize (mkNode "element" (some nm) v (c :: t) attrs p) =
            "<" ++ nm ++ attrs_string attrs ++ ">" ++
              serialize_list (NodeList.ofList (c :: t)) ++ "</" ++ nm ++ ">" from rfl]
      rw [serialize_list_ofList]
      rfl

/-- C8 witness: the non-empty-element equation at a concrete element with
one attribute (whose value needs escaping) and one text child. -/
theorem C8_serialization_witness :
    serialize (mkNode "element" (some "r") none
      [mkNode "text" none (some "x") [] [] none] [("q", "a&b")] none) =
      "<r q=\"a&amp;b\">x</r>" :=
  (C8_serialization.2.2.2.1 "r" none [mkNode "text" none (some "x") [] [] none]
    [("q", "a&b")] none (List.cons_ne_nil _ _)).trans rfl

end XF

namespace XF

theorem store_set_length (st : Store) (i : Nat) (f : NRec → NRec) :
    (store_set st i f).length = st.length := by
  induction st generalizing i with
  | nil => rfl
  | cons r rest ih =>
    match i with
    | 0 => rfl
    | j + 1 => simp [store_set, ih]

theorem store_set_get_ne (st : Store) (i j : Nat) (f : NRec → NRec) (h : j ≠ i) :
    (store_set st i f).get? j = st.get? j := by
  induction st generalizing i j with
  | nil => rfl
  | cons r rest ih =>
    match i, j with
    | 0, 0 => exact absurd rfl h
    | 0, k + 1 => rfl
    | l + 1, 0 => rfl
    | l + 1, k + 1 =>
      simp only [store_set, List.get?_cons_succ]
      exact ih l k (fun e => h (by omega))

theorem store_set_get_self (st : Store) (i : Nat) (f : NRec → NRec) :
    (store_set st i f).get? i = (st.get? i).map f := by
  induction st generalizing i with
  | nil => rfl
  | cons r rest ih =>
    match i with
    | 0 => rfl
    | j + 1 => simp only [store_set, List.get?_cons_succ]; exact ih j

theorem store_set_region_closed (st : Store) (i : Nat) (f : NRec → NRec) (B : Nat)
    (hf : B ≤ i → ∀ r, st.get? i = some r →
      (∀ c ∈ (f r).children, B ≤ c) ∧ (∀ p, (f r).parent = some p → B ≤ p))
    (h : region_closed B st) : region_closed B (store_set st i f) := by
  intro j r' hBj hget
  by_cases hji : j = i
  · subst hji
    rw [store_set_get_self] at hget
    match hsrc : st.get? j with
    | none => rw [hsrc] at hget; exact absurd hget (by simp)
    | some r0 =>
      rw [hsrc] at hget
      simp only [Option.map_some'] at hget
      have hr : r' = f r0 := (Option.some.inj hget).symm
      subst hr
      exact hf hBj r0 hsrc
  · rw [store_set_get_ne st i j f hji] at hget
    exact h j r' hBj hget

theorem append_region_closed (st : Store) (l : Store) (B : Nat)
    (hl : ∀ r ∈ l, (∀ c ∈ r.children, B ≤ c) ∧ (∀ p, r.parent = some p → B ≤ p))
    (h : region_closed B st) : region_closed B (st ++ l) := by
  intro j r hBj hget
  by_cases hj : j < st.length
  · rw [List.get?_append hj] at hget
    exact h j r hBj hget
  · rw [List.get?_append_right (Nat.le_of_not_lt hj)] at hget
    exact hl r (List.get?_mem hget)

theorem set_parents_spec (pid B : Nat) (hpid : B ≤ pid) :
    ∀ (cs : List Nat) (st : Store) (L0 : Nat), B ≤ L0 → (∀ c ∈ cs, L0 ≤ c) →
      (cs.foldl (fun s c => store_set s c (fun x => { x with parent := some pid })) st).length
          = st.length ∧
      (∀ i, i < L0 →
        (cs.foldl (fun s c => store_set s c (fun x => { x with parent := some pid })) st).get? i
          = st.get? i) ∧
      (region_closed B st →
        region_closed B
          (cs.foldl (fun s c => store_set s c (fun x => { x with parent := some pid })) st)) := by
  intro cs
  induction cs with
  | nil => intro st L0 _ _; exact ⟨rfl, fun _ _ => rfl, fun h => h⟩
  | cons c rest ih =>
    intro st L0 hBL hall
    have hc := hall c (List.mem_cons_self c rest)
    have step := ih (store_set st c (fun x => { x with parent := some pid })) L0 hBL
      (fun d hd => hall d (List.mem_cons_of_mem _ hd))
    refine ⟨?_, ?_, ?_⟩
    · simp only [List.foldl_cons]
      rw [step.1, store_set_length]
    · intro i hi
      simp only [List.foldl_cons]
      rw [step.2.1 i hi, store_set_get_ne st c i _ (by omega)]
    · intro h
      simp only [List.foldl_cons]
      refine step.2.2 (store_set_region_closed st c _ B ?_ h)
      intro _ r hget
      refine ⟨fun d hd => (h c r (by omega) hget).1 d hd, fun p hp => ?_⟩
      simp only at hp
      exact (Option.some.inj hp) ▸ hpid

theorem set_attrs_spec (nid B : Nat) :
    ∀ (kvs : List (String × String)) (st : Store),
      (kvs.foldl (fun s kv =>
        store_set s nid (fun r => { r with attrs := dict_insert r.attrs kv.1 kv.2 })) st).length
          = st.length ∧
      (∀ i, i ≠ nid →
        (kvs.foldl (fun s kv =>
          store_set s nid (fun r => { r with attrs := dict_insert r.attrs kv.1 kv.2 })) st).get? i
            = st.get? i) ∧
      (region_closed B st →
        region_closed B
          (kvs.foldl (fun s kv =>
            store_set s nid (fun r => { r with attrs := dict_insert r.attrs kv.1 kv.2 })) st)) := by
  intro kvs
  induction kvs with
  | nil => intro st; exact ⟨rfl, fun _ _ => rfl, fun h => h⟩
  | cons kv rest ih =>
    intro st
    have step := ih (store_set st nid
      (fun r => { r with attrs := dict_insert r.attrs kv.1 kv.2 }))
    refine ⟨?_, ?_, ?_⟩
    · simp only [List.foldl_cons]
      rw [step.1, store_set_length]
    · intro i hi
      simp only [List.foldl_cons]
      rw [step.2.1 i hi, store_set_get_ne st nid i _ hi]
    · intro h
      simp only [List.foldl_cons]
      refine step.2.2 (store_set_region_closed st nid _ B ?_ h)
      intro hB r hget
      exact (h nid r hB hget)

end XF

namespace XF

theorem region_closed_self (st : Store) : region_closed st.length st := by
  intro j r hj hget
  have hlt : j < st.length := (List.get?_eq_some.mp hget).1
  exact absurd hlt (Nat.not_lt.mpr hj)

theorem reaches_ge (st : Store) (B : Nat) (h : region_closed B st) (i : Nat) (hi : B ≤ i) :
    ∀ j, ReachesA st i j → B ≤ j := by
  intro j hr
  induction hr with
  | refl => exact hi
  | child hr hget hc ih => exact (h _ _ ih hget).1 _ hc
  | up hr hget hp ih => exact (h _ _ ih hget).2 _ hp

theorem dc_list_spec (copy1 : Store → Nat → Option (Store × Nat))
    (hcopy : ∀ st src st' cid, copy1 st src = some (st', cid) →
      st.length ≤ st'.length ∧ (∀ i, i < st.length → st'.get? i = st.get? i) ∧
      st.length ≤ cid ∧ cid < st'.length ∧
      (∀ B, B ≤ st.length → region_closed B st → region_closed B st')) :
    ∀ (l : List Nat) (st st' : Store) (cids : List Nat),
      dc_list copy1 st l = some (st', cids) →
      st.length ≤ st'.length ∧ (∀ i, i < st.length → st'.get? i = st.get? i) ∧
      (∀ c ∈ cids, st.length ≤ c ∧ c < st'.length) ∧
      (∀ B, B ≤ st.length → region_closed B st → region_closed B st') := by
  intro l
  induction l with
  | nil =>
    intro st st' cids h
    simp only [dc_list, Option.some.injEq, Prod.mk.injEq] at h
    obtain ⟨h1, h2⟩ := h
    subst h1; subst h2
    exact ⟨Nat.le_refl _, fun _ _ => rfl, fun c hc => absurd hc (List.not_mem_nil c),
      fun _ _ hcl => hcl⟩
  | cons c rest ih =>
    intro st st' cids h
    simp only [dc_list, Bind.bind, Option.bind] at h
    match hc1 : copy1 st c with
    | none => rw [hc1] at h; exact absurd h (by simp)
    | some pA =>
      rw [hc1] at h
      simp only at h
      match hrest : dc_list copy1 pA.1 rest with
      | none => rw [hrest] at h; exact absurd h (by simp)
      | some qB =>
        rw [hrest] at h
        simp only [Option.some.injEq, Prod.mk.injEq] at h
        obtain ⟨h1, h2⟩ := h
        subst h1; subst h2
        obtain ⟨la, fa, ca1, ca2, cla⟩ := hcopy st c pA.1 pA.2 hc1
        obtain ⟨lb, fb, cb, clb⟩ := ih pA.1 qB.1 qB.2 hrest
        refine ⟨Nat.le_trans la lb, ?_, ?_, ?_⟩
        · intro i hi
          rw [fb i (by omega), fa i hi]
        · intro d hd
          rcases List.mem_cons.mp hd with he | hm
          · subst he
            exact ⟨ca1, by omega⟩
          · have := cb d hm
            exact ⟨by omega, this.2⟩
        · intro B hB hcl
          exact clb B (by omega) (cla B hB hcl)

theorem dc_arena_spec :
    ∀ (fuel : Nat) (recurse : Bool) (st : Store) (src : Nat) (st' : Store) (cid : Nat),
      dc_arena recurse fuel st src = some (st', cid) →
      st.length ≤ st'.length ∧
      (∀ i, i < st.length → st'.get? i = st.get? i) ∧
      st.length ≤ cid ∧ cid < st'.length ∧
      (∀ B, B ≤ st.length → region_closed B st → region_closed B st') := by
  intro fuel
  induction fuel with
  | zero => intro recurse st src st' cid h; exact absurd h (by simp [dc_arena])
  | succ fuel ih =>
    intro recurse st src st' cid h
    simp only [dc_arena, Bind.bind, Option.bind] at h
    match hsrc : st.get? src with
    | none => rw [hsrc] at h; exact absurd h (by simp)
    | some r =>
      rw [hsrc] at h
      simp only at h
      have hfresh : ∀ rec0 ∈ [(⟨r.kind, r.name, r.value, [], r.attrs, none⟩ : NRec)],
          (∀ c ∈ rec0.children, st.length ≤ c) ∧
          (∀ p, rec0.parent = some p → st.length ≤ p) := by
        intro rec0 hrec0
        rw [List.mem_singleton] at hrec0
        subst hrec0
        exact ⟨fun c hc => absurd hc (List.not_mem_nil c), fun p hp => by
          exact absurd hp (by simp)⟩
      match recurse with
      | false =>
        simp only [Bool.false_eq_true, if_false, Option.some.injEq, Prod.mk.injEq] at h
        obtain ⟨h1, h2⟩ := h
        subst h1; subst h2
        refine ⟨by simp, ?_, Nat.le_refl _, by simp, ?_⟩
        · intro i hi
          exact List.get?_append hi
        · intro B hB hcl
          refine append_region_closed st _ B ?_ hcl
          intro rec0 hrec0
          have := hfresh rec0 hrec0
          exact ⟨fun c hc => Nat.le_trans hB ((this.1) c hc),
            fun p hp => Nat.le_trans hB ((this.2) p hp)⟩
      | true =>
        simp only [if_true] at h
        match hdl : dc_list (dc_arena true fuel)
            (st ++ [⟨r.kind, r.name, r.value, [], r.attrs, none⟩]) r.children with
        | none => rw [hdl] at h; exact absurd h (by simp)
        | some p2 =>
          rw [hdl] at h
          simp only [Option.some.injEq, Prod.mk.injEq] at h
          obtain ⟨h1, h2⟩ := h
          subst h1; subst h2
          have hst1len : (st ++ [(⟨r.kind, r.name, r.value, [], r.attrs, none⟩ : NRec)]).length
              = st.length + 1 := by simp
          obtain ⟨l2, f2, cb2, cl2⟩ := dc_list_spec (dc_arena true fuel)
            (fun s a b c hx => ih true s a b c hx) r.children _ p2.1 p2.2 hdl
          have hcidlt : st.length < p2.1.length := by omega
          have hsp := set_parents_spec st.length st.length (Nat.le_refl _) p2.2
            (store_set p2.1 st.length (fun c => { c with children := p2.2 }))
            (st.length + 1) (Nat.le_succ _)
            (fun c hc => by have := cb2 c hc; omega)
          have hsp2 := fun (B : Nat) (hB : B ≤ st.length) =>
            set_parents_spec st.length B hB p2.2
              (store_set p2.1 st.length (fun c => { c with children := p2.2 }))
              (st.length + 1) (by omega)
              (fun c hc => by have := cb2 c hc; omega)
          refine ⟨?_, ?_, Nat.le_refl _, ?_, ?_⟩
          · rw [hsp.1, store_set_length]
            omega
          · intro i hi
            rw [hsp.2.1 i (by omega), store_set_get_ne _ _ _ _ (by omega),
              f2 i (by omega), List.get?_append hi]
          · rw [hsp.1, store_set_length]
            omega
          · intro B hB hcl
            have hcl1 : region_closed B
                (st ++ [(⟨r.kind, r.name, r.value, [], r.attrs, none⟩ : NRec)]) := by
              refine append_region_closed st _ B ?_ hcl
              intro rec0 hrec0
              have := hfresh rec0 hrec0
              exact ⟨fun c hc => Nat.le_trans hB ((this.1) c hc),
                fun p hp => Nat.le_trans hB ((this.2) p hp)⟩
            have hcl2 : region_closed B p2.1 := cl2 B (by omega) hcl1
            have hcl3 : region_closed B
                (store_set p2.1 st.length (fun c => { c with children := p2.2 })) := by
              refine store_set_region_closed _ _ _ B ?_ hcl2
              intro hB2 r0 hget
              refine ⟨fun c hc => ?_, fun p hp => ?_⟩
              · simp only at hc
                have := cb2 c hc
                omega
              · simp only at hp
                exact (hcl2 st.length r0 hB2 hget).2 p hp
            exact (hsp2 B hB).2.2 hcl3

end XF

namespace XF

theorem items_arena_spec (fuel : Nat) :
    ∀ (l : List ItemA) (st st' : Store) (cids : List Nat),
      items_arena fuel st l = some (st', cids) →
      st.length ≤ st'.length ∧ (∀ i, i < st.length → st'.get? i = st.get? i) ∧
      (∀ c ∈ cids, st.length ≤ c ∧ c < st'.length) ∧
      (∀ B, B ≤ st.length → region_closed B st → region_closed B st') := by
  intro l
  induction l with
  | nil =>
    intro st st' cids h
    simp only [items_arena, Option.some.injEq, Prod.mk.injEq] at h
    obtain ⟨h1, h2⟩ := h
    subst h1; subst h2
    exact ⟨Nat.le_refl _, fun _ _ => rfl, fun c hc => absurd hc (List.not_mem_nil c),
      fun _ _ hcl => hcl⟩
  | cons it rest ih =>
    intro st st' cids h
    match it with
    | .nodeRef i0 =>
      simp only [items_arena, Bind.bind, Option.bind] at h
      match hc1 : dc_arena true fuel st i0 with
      | none => rw [hc1] at h; exact absurd h (by simp)
      | some pA =>
        rw [hc1] at h
        simp only at h
        match hrest : items_arena fuel pA.1 rest with
        | none => rw [hrest] at h; exact absurd h (by simp)
        | some qB =>
          rw [hrest] at h
          simp only [Option.some.injEq, Prod.mk.injEq] at h
          obtain ⟨h1, h2⟩ := h
          subst h1; subst h2
          obtain ⟨la, fa, ca1, ca2, cla⟩ := dc_arena_spec fuel true st i0 pA.1 pA.2 hc1
          obtain ⟨lb, fb, cb, clb⟩ := ih pA.1 qB.1 qB.2 hrest
          refine ⟨Nat.le_trans la lb, ?_, ?_, ?_⟩
          · intro i hi
            rw [fb i (by omega), fa i hi]
          · intro d hd
            rcases List.mem_cons.mp hd with he | hm
            · subst he
              exact ⟨ca1, by omega⟩
            · have := cb d hm
              exact ⟨by omega, this.2⟩
          · intro B hB hcl
            exact clb B (by omega) (cla B hB hcl)
    | .atom s =>
      simp only [items_arena, Bind.bind, Option.bind] at h
      match hrest : items_arena fuel (st ++ [⟨"text", none, some s, [], [], none⟩]) rest with
      | none => rw [hrest] at h; exact absurd h (by simp)
      | some qB =>
        rw [hrest] at h
        simp only [Option.some.injEq, Prod.mk.injEq] at h
        obtain ⟨h1, h2⟩ := h
        subst h1; subst h2
        obtain ⟨lb, fb, cb, clb⟩ := ih _ qB.1 qB.2 hrest
        have hlen : (st ++ [(⟨"text", none, some s, [], [], none⟩ : NRec)]).length
            = st.length + 1 := by simp
        refine ⟨by omega, ?_, ?_, ?_⟩
        · intro i hi
          rw [fb i (by omega), List.get?_append hi]
        · intro d hd
          rcases List.mem_cons.mp hd with he | hm
          · subst he
            exact ⟨Nat.le_refl _, by omega⟩
          · have := cb d hm
            exact ⟨by omega, this.2⟩
        · intro B hB hcl
          refine clb B (by omega) ?_
          refine append_region_closed st _ B ?_ hcl
          intro rec0 hrec0
          rw [List.mem_singleton] at hrec0
          subst hrec0
          exact ⟨fun c hc => absurd hc (List.not_mem_nil c),
            fun p hp => absurd hp (by simp)⟩

theorem contents_arena_spec (fuel : Nat) :
    ∀ (l : List ContentA) (st st' : Store) (cids : List Nat),
      contents_arena fuel st l = some (st', cids) →
      st.length ≤ st'.length ∧ (∀ i, i < st.length → st'.get? i = st.get? i) ∧
      (∀ c ∈ cids, st.length ≤ c ∧ c < st'.length) ∧
      (∀ B, B ≤ st.length → region_closed B st → region_closed B st') := by
  intro l
  induction l with
  | nil =>
    intro st st' cids h
    simp only [contents_arena, Option.some.injEq, Prod.mk.injEq] at h
    obtain ⟨h1, h2⟩ := h
    subst h1; subst h2
    exact ⟨Nat.le_refl _, fun _ _ => rfl, fun c hc => absurd hc (List.not_mem_nil c),
      fun _ _ hcl => hcl⟩
  | cons cnt rest ih =>
    intro st st' cids h
    match cnt with
    | .text s =>
      simp only [contents_arena, Bind.bind, Option.bind] at h
      match hrest : contents_arena fuel (st ++ [⟨"text", none, some s, [], [], none⟩]) rest with
      | none => rw [hrest] at h; exact absurd h (by simp)
      | some qB =>
        rw [hrest] at h
        simp only [Option.some.injEq, Prod.mk.injEq] at h
        obtain ⟨h1, h2⟩ := h
        subst h1; subst h2
        obtain ⟨lb, fb, cb, clb⟩ := ih _ qB.1 qB.2 hrest
        have hlen : (st ++ [(⟨"text", none, some s, [], [], none⟩ : NRec)]).length
            = st.length + 1 := by simp
        refine ⟨by omega, ?_, ?_, ?_⟩
        · intro i hi
          rw [fb i (by omega), List.get?_append hi]
        · intro d hd
          rcases List.mem_cons.mp hd with he | hm
          · subst he
            exact ⟨Nat.le_refl _, by omega⟩
          · have := cb d hm
            exact ⟨by omega, this.2⟩
        · intro B hB hcl
          refine clb B (by omega) ?_
          refine append_region_closed st _ B ?_ hcl
          intro rec0 hrec0
          rw [List.mem_singleton] at hrec0
          subst hrec0
          exact ⟨fun c hc => absurd hc (List.not_mem_nil c),
            fun p hp => absurd hp (by simp)⟩
    | .eval items =>
      simp only [contents_arena, Bind.bind, Option.bind] at h
      match hit : items_arena fuel st items with
      | none => rw [hit] at h; exact absurd h (by simp)
      | some pA =>
        rw [hit] at h
        simp only at h
        match hrest : contents_arena fuel pA.1 rest with
        | none => rw [hrest] at h; exact absurd h (by simp)
        | some qB =>
          rw [hrest] at h
          simp only [Option.some.injEq, Prod.mk.injEq] at h
          obtain ⟨h1, h2⟩ := h
          subst h1; subst h2
          obtain ⟨la, fa, ca, cla⟩ := items_arena_spec fuel items st pA.1 pA.2 hit
          obtain ⟨lb, fb, cb, clb⟩ := ih pA.1 qB.1 qB.2 hrest
          refine ⟨Nat.le_trans la lb, ?_, ?_, ?_⟩
          · intro i hi
            rw [fb i (by omega), fa i hi]
          · intro d hd
            rcases List.mem_append.mp hd with hm | hm
            · have := ca d hm
              exact ⟨this.1, by omega⟩
            · have := cb d hm
              exact ⟨by omega, this.2⟩
          · intro B hB hcl
            exact clb B (by omega) (cla B hB hcl)

end XF

namespace XF

/-- C9: constructor output never aliases or mutates the input tree.  Over
the arena (object-identity) model of `eval_constructor`'s assembly and
`deep_copy`: whenever the constructor succeeds on an input store, (1)
every record of the input store — kind, name, value, children, attrs and
parent link — is unchanged in the result store (the `child.parent = node`
re-parenting assignments only ever hit freshly allocated records, i.e.
the input tree is identical before and after and mutating evaluator
output cannot change it), (2) the built element is a fresh object, and
(3) every object reachable from it through children or parent links is
fresh — a newly constructed text/element node or a deep copy, never an
alias of an input node. -/
theorem C9_constructor_freshness (fuel : Nat) (st : Store) (name : String)
    (attrs : List (String × String)) (contents : List ContentA) (st' : Store) (nid : Nat)
    (h : eval_constructor_arena fuel st name attrs contents = some (st', nid)) :
    (∀ i, i < st.length → st'.get? i = st.get? i) ∧
    st.length ≤ nid ∧
    (∀ j, ReachesA st' nid j → st.length ≤ j) := by
  simp only [eval_constructor_arena] at h
  match hca : contents_arena fuel
      (attrs.foldl (fun s kv => store_set s st.length
        (fun r => { r with attrs := dict_insert r.attrs kv.1 kv.2 }))
        (st ++ [⟨"element", some name, none, [], [], none⟩])) contents with
  | none => rw [hca] at h; exact absurd h (by simp)
  | some p2 =>
    rw [hca] at h
    simp only [Option.some.injEq, Prod.mk.injEq] at h
    obtain ⟨h1, h2⟩ := h
    subst h1; subst h2
    have hst0len : (st ++ [(⟨"element", some name, none, [], [], none⟩ : NRec)]).length
        = st.length + 1 := by simp
    have hcl0 : region_closed st.length
        (st ++ [(⟨"element", some name, none, [], [], none⟩ : NRec)]) := by
      refine append_region_closed st _ st.length ?_ (region_closed_self st)
      intro rec0 hrec0
      rw [List.mem_singleton] at hrec0
      subst hrec0
      exact ⟨fun c hc => absurd hc (List.not_mem_nil c), fun p hp => absurd hp (by simp)⟩
    have hattrs := set_attrs_spec st.length st.length attrs
      (st ++ [⟨"element", some name, none, [], [], none⟩])
    have hst1len : (attrs.foldl (fun s kv => store_set s st.length
        (fun r => { r with attrs := dict_insert r.attrs kv.1 kv.2 }))
        (st ++ [⟨"element", some name, none, [], [], none⟩])).length = st.length + 1 := by
      rw [hattrs.1, hst0len]
    have hcl1 := hattrs.2.2 hcl0
    obtain ⟨lc, fc, cc, clc⟩ := contents_arena_spec fuel contents _ p2.1 p2.2 hca
    have hcl2 : region_closed st.length p2.1 :=
      clc st.length (by omega) hcl1
    have hpar := set_parents_spec st.length st.length (Nat.le_refl _) p2.2 p2.1
      (st.length + 1) (by omega) (fun c hc => by have := cc c hc; omega)
    have hcl3 : region_closed st.length
        (p2.2.foldl (fun s c => store_set s c
          (fun x => { x with parent := some st.length })) p2.1) :=
      hpar.2.2 hcl2
    have hcl4 : region_closed st.length
        (store_set (p2.2.foldl (fun s c => store_set s c
          (fun x => { x with parent := some st.length })) p2.1) st.length
          (fun r => { r with children := p2.2 })) := by
      refine store_set_region_closed _ _ _ st.length ?_ hcl3
      intro hB r0 hget
      refine ⟨fun c hc => ?_, fun p hp => ?_⟩
      · simp only at hc
        have := cc c hc
        omega
      · simp only at hp
        exact (hcl3 st.length r0 hB hget).2 p hp
    refine ⟨?_, Nat.le_refl _, ?_⟩
    · intro i hi
      rw [store_set_get_ne _ _ _ _ (by omega), hpar.2.1 i (by omega),
        fc i (by omega), hattrs.2.1 i (by omega), List.get?_append hi]
    · intro j hr
      exact reaches_ge _ st.length hcl4 st.length (Nat.le_refl _) j hr

/-- C9 witness: a concrete constructor run over `input_store` (a
three-node input document) with one literal text content and one
evaluated content holding an input node and an atomic: the input records
are untouched and the fresh element's id is past the input region. -/
theorem C9_constructor_freshness_witness :
    ((eval_constructor_arena 9 input_store "wrap" [("k", "v")]
        [.text "t", .eval [.nodeRef 1, .atom "z"]]).map Prod.snd = some 3) ∧
    ((eval_constructor_arena 9 input_store "wrap" [("k", "v")]
        [.text "t", .eval [.nodeRef 1, .atom "z"]]).map
          (fun p => p.1.get? 1) = some (input_store.get? 1)) := by
  have h : eval_constructor_arena 9 input_store "wrap" [("k", "v")]
      [.text "t", .eval [.nodeRef 1, .atom "z"]] =
      some ((eval_constructor_arena 9 input_store "wrap" [("k", "v")]
        [.text "t", .eval [.nodeRef 1, .atom "z"]]).getD ([], 0)) := rfl
  obtain ⟨hframe, hge, _⟩ := C9_constructor_freshness 9 input_store "wrap" [("k", "v")]
    [.text "t", .eval [.nodeRef 1, .atom "z"]] _ _ h
  refine ⟨rfl, ?_⟩
  rw [h]
  simp only [Option.map_some']
  exact congrArg some (hframe 1 (by decide))

end XF
